import Mathlib

/-! # Forwarding core of the SSH gateway (`pkg/forward/forward.go`)

A shallow embedding of the three relay loops of package `forward` and of their
two public entry points: `Requests` / `forwardClientRequests`,
`channel.forwardChannelRequests`, `Channels` / `forwardChannels`.  The Channel
Pump `channel.handle` runs concurrently with the dispatcher; only its start
(`go channel.handle(...)`) is part of a run of `forwardChannels`.

The loops are effectful: they call into the SSH library, the context and the
logger.  Every such call is recorded, in program order, as an `Event`; a run of
a function is the pair (events, returned error).  The collaborators are inputs
of the model:

* a Go channel that is closed by its producer after finitely many items is the
  `List` of these items; a `nil` channel or pointer is `none`;
* the methods of an inbound item (`Request.Reply`, `NewChannel.Accept`,
  `NewChannel.Reject`) are fields of the item;
* the answers of the target session and of the context may change over time;
  they take the number of the inbound item being processed (the turn of the
  loop, counted from 0) as their first argument.
-/

namespace Forward

/-- A Go byte slice. -/
abbrev Bytes := List Nat

/-- A Go `error` value, as far as this package looks at it: the text returned by
its `Error()` method and the outcome of the type assertion
`err.(*ssh.OpenChannelError)` (`some (Reason, Message)` when it holds). -/
structure GoError where
  text : String
  openChannelError : Option (Nat × String)
deriving DecidableEq, Repr

/-- Go `errors.New`. -/
def errorsNew (text : String) : GoError := ⟨text, none⟩

def errTargetMissing : GoError := errorsNew "target SSH Client missing"
def errRequestsChanMissing : GoError := errorsNew "requests chan missing"
def errChannelsChanMissing : GoError := errorsNew "channels chan missing"

/-- The record built by `forwardChannels` for a negotiated channel; the four
fields are the handles returned by `Accept` and `OpenChannel`. -/
structure channel where
  sourceChannel : Nat
  sourceRequests : Nat
  targetChannel : Nat
  targetRequests : Nat
deriving DecidableEq, Repr

/-- The calls a relay loop makes on its collaborators.  Every call made inside
a loop carries the turn in which it is made: the position (from 0) in the
inbound sequence of the item being processed. -/
inductive Event
  /-- an item was taken from the inbound sequence (`range` delivered it) -/
  | Receive (turn : Nat)
  /-- `target.SendRequest(name, wantReply, payload)` -/
  | SendRequest (turn : Nat) (name : String) (wantReply : Bool) (payload : Bytes)
  /-- `req.Reply(ok, payload)` on the inbound request of this turn -/
  | Reply (turn : Nat) (ok : Bool) (payload : Bytes)
  /-- `target.OpenChannel(name, data)` -/
  | OpenChannel (turn : Nat) (name : String) (data : Bytes)
  /-- `newChannel.Reject(reason, message)` on the notification of this turn -/
  | Reject (turn : Nat) (reason : Nat) (message : String)
  /-- `newChannel.Accept()` on the notification of this turn -/
  | Accept (turn : Nat)
  /-- `go channel.handle(...)`: a Channel Pump is started on the record `c`,
  its logger tagged with the channel type -/
  | GoHandle (turn : Nat) (c : channel) (type : String)
  /-- `Debug(msg, type, result)` on the logger of the context -/
  | Debug (turn : Nat) (msg : String) (type : String) (result : Bool)
  /-- `logger.Error(msg, err)` -/
  | Error (turn : Nat) (msg : String) (err : GoError)
  /-- the deferred `target.Close()` -/
  | Close
deriving DecidableEq, Repr

/-- An `*ssh.Request` taken from an inbound sequence. -/
structure Request where
  /-- field `Type` of the source (a reserved word here) -/
  Typ : String
  WantReply : Bool
  Payload : Bytes
  /-- method `Reply(ok, payload) error` -/
  Reply : Bool → Bytes → Option GoError

/-- An `ssh.NewChannel` taken from the inbound sequence of channel-open
notifications. -/
structure NewChannel where
  ChannelType : String
  ExtraData : Bytes
  /-- method `Accept() (Channel, <-chan *Request, error)` -/
  Accept : Nat × Nat × Option GoError
  /-- method `Reject(reason, message) error` -/
  Reject : Nat → String → Option GoError

/-- The target `*ssh.Client`.  First argument of each method: the turn of the
loop in which the call is made. -/
structure Client where
  /-- `SendRequest(name, wantReply, payload) (bool, []byte, error)` -/
  SendRequest : Nat → String → Bool → Bytes → Bool × Bytes × Option GoError
  /-- `OpenChannel(name, data) (Channel, <-chan *Request, error)` -/
  OpenChannel : Nat → String → Bytes → Nat × Nat × Option GoError

/-- A destination `ssh.Channel`.  First argument: the turn of the loop. -/
structure Channel where
  /-- `SendRequest(name, wantReply, payload) (bool, error)` -/
  SendRequest : Nat → String → Bool → Bytes → Bool × Option GoError

/-- The `context.Context` of a relay.  First argument: the turn of the loop. -/
structure Context where
  /-- `ctx.Err()`; within a turn successive calls give the same answer (once
  non-nil, `Err` does not change) -/
  Err : Nat → Option GoError
  /-- `EnvironmentFromContext(ctx)` (declared elsewhere in the package): the
  entries of the environment map in the order in which `range` yields them in
  this turn -/
  Environment : Nat → List (String × String)

/-- `ssh.Prohibited`, the first `RejectionReason` (`iota + 1`). -/
def Prohibited : Nat := 1

/-- `for x := range ch { body }` followed by `return nil`, from turn `i` on,
over a channel that delivers the listed items and is then closed.  The body
yields the calls it makes and `some e` when it executes `return e`, `none` when
the turn ends otherwise (end of the block, `continue`). -/
def forRange {α : Type} (body : Nat → α → List Event × Option GoError) :
    Nat → List α → List Event × Option GoError
  | _, [] => ([], none)
  | i, x :: rest =>
    match body i x with
    | (evs, some e) => (Event.Receive i :: evs, some e)
    | (evs, none) =>
      let (evs', r) := forRange body (i + 1) rest
      (Event.Receive i :: evs ++ evs', r)

/-- Body of the loop of `forwardClientRequests` (lines 36-45). -/
def forwardClientRequestsBody (target : Client) (i : Nat) (req : Request) :
    List Event × Option GoError :=
  let (ok, payload, err) := target.SendRequest i req.Typ req.WantReply req.Payload
  let sent := [Event.SendRequest i req.Typ req.WantReply req.Payload]
  match err with
  | some e => (sent, some e)
  | none =>
    if req.WantReply then
      match req.Reply ok payload with
      | some e => (sent ++ [Event.Reply i ok payload], some e)
      | none =>
        (sent ++ [Event.Reply i ok payload, Event.Debug i "Forward ssh request" req.Typ ok], none)
    else
      (sent ++ [Event.Debug i "Forward ssh request" req.Typ ok], none)

/-- `forwardClientRequests` (lines 33-48): the loop, then the deferred
`target.Close()`. -/
def forwardClientRequests (target : Client) (requests : List Request) :
    List Event × Option GoError :=
  let (evs, r) := forRange (forwardClientRequestsBody target) 0 requests
  (evs ++ [Event.Close], r)

/-- `Requests` (lines 23-31).  The context is used for the logger only, which is
part of the trace. -/
def Requests (target : Option Client) (requests : Option (List Request)) :
    List Event × Option GoError :=
  match target with
  | none => ([], some errTargetMissing)
  | some target =>
    match requests with
    | none => ([], some errRequestsChanMissing)
    | some requests => forwardClientRequests target requests

/-- Go `[]byte(s)`: the UTF-8 bytes of a string. -/
def stringBytes (s : String) : Bytes :=
  (s.data.flatMap String.utf8EncodeChar).map UInt8.toNat

/-- Big-endian `uint32`, four bytes. -/
def uint32be (n : Nat) : Bytes :=
  [n / 2 ^ 24 % 256, n / 2 ^ 16 % 256, n / 2 ^ 8 % 256, n % 256]

/-- Modelled from the spec: `encoding.String` of package `pkg/encoding`, whose
source file is missing.  "The length-prefixed (SSH string) encoding": the byte
length as a big-endian `uint32`, then the bytes. -/
def encoding.String (s : String) : Bytes :=
  uint32be ((stringBytes s).length % 2 ^ 32) ++ stringBytes s

/-- Reading one length-prefixed SSH string off the front of a payload: the
bytes of the string and the remaining payload. -/
def decodeString : Bytes → Option (Bytes × Bytes)
  | b0 :: b1 :: b2 :: b3 :: rest =>
    let n := b0 * 2 ^ 24 + b1 * 2 ^ 16 + b2 * 2 ^ 8 + b3
    if n ≤ rest.length then some (rest.take n, rest.drop n) else none
  | _ => none

/-- Reading the payload of an `"env"` request: two SSH strings, nothing after. -/
def decodeEnv (payload : Bytes) : Option (Bytes × Bytes) :=
  match decodeString payload with
  | some (k, rest) =>
    match decodeString rest with
    | some (v, []) => some (k, v)
    | _ => none
  | none => none

/-- Body of the loop of `forwardChannelRequests` (lines 99-113). -/
def forwardChannelRequestsBody (ctx : Context) (target : Channel) (i : Nat) (req : Request) :
    List Event × Option GoError :=
  let envs :=
    if req.Typ == "shell" || req.Typ == "exec" then
      (ctx.Environment i).map fun (k, v) =>
        Event.SendRequest i "env" false (encoding.String k ++ encoding.String v)
    else []
  let (ok, err) := target.SendRequest i req.Typ req.WantReply req.Payload
  let sent := envs ++ [Event.SendRequest i req.Typ req.WantReply req.Payload]
  match err with
  | some e => (sent, some e)
  | none =>
    if req.WantReply then
      match req.Reply ok [] with
      | some e => (sent ++ [Event.Reply i ok []], some e)
      | none =>
        (sent ++ [Event.Reply i ok [], Event.Debug i "Forward channel request" req.Typ ok], none)
    else
      (sent ++ [Event.Debug i "Forward channel request" req.Typ ok], none)

/-- `channel.forwardChannelRequests` (lines 96-116): the loop, then the
deferred `target.Close()`. -/
def forwardChannelRequests (ctx : Context) (target : Channel) (requests : List Request) :
    List Event × Option GoError :=
  let (evs, r) := forRange (forwardChannelRequestsBody ctx target) 0 requests
  (evs ++ [Event.Close], r)

/-- The type assertion `err.(*ssh.OpenChannelError)` of line 139: when it holds,
the error together with its `Reason` and `Message`. -/
def asOpenChannelError : Option GoError → Option (GoError × Nat × String)
  | some e =>
    match e.openChannelError with
    | some (reason, message) => some (e, reason, message)
    | none => none
  | none => none

/-- Body of the loop of `forwardChannels` (lines 132-156). -/
def forwardChannelsBody (ctx : Context) (target : Client) (i : Nat) (newChannel : NewChannel) :
    List Event × Option GoError :=
  match ctx.Err i with
  | some c =>
    match newChannel.Reject Prohibited c.text with
    | some err => ([Event.Reject i Prohibited c.text], some err)
    | none => ([Event.Reject i Prohibited c.text], some c)
  | none =>
    let (targetChannel, targetRequests, err) :=
      target.OpenChannel i newChannel.ChannelType newChannel.ExtraData
    let opened := [Event.OpenChannel i newChannel.ChannelType newChannel.ExtraData]
    match asOpenChannelError err with
    | some (e, reason, message) =>
      match newChannel.Reject reason message with
      | some err => (opened ++ [Event.Reject i reason message], some err)
      | none => (opened ++ [Event.Reject i reason message], some e)
    | none =>
      let (sourceChannel, sourceRequests, err) := newChannel.Accept
      match err with
      | some e => (opened ++ [Event.Accept i, Event.Error i "Could not accept channel" e], none)
      | none =>
        (opened ++ [Event.Accept i,
          Event.GoHandle i ⟨sourceChannel, sourceRequests, targetChannel, targetRequests⟩
            newChannel.ChannelType], none)

/-- The loop of `forwardChannels` (lines 131-158) from turn `i` on. -/
def forwardChannelsFrom (ctx : Context) (target : Client) (i : Nat)
    (channels : List NewChannel) : List Event × Option GoError :=
  forRange (forwardChannelsBody ctx target) i channels

/-- `forwardChannels` (lines 129-159); there is no deferred `Close` here. -/
def forwardChannels (ctx : Context) (target : Client) (channels : List NewChannel) :
    List Event × Option GoError :=
  forwardChannelsFrom ctx target 0 channels

/-- `Channels` (lines 119-127). -/
def Channels (ctx : Context) (target : Option Client) (channels : Option (List NewChannel)) :
    List Event × Option GoError :=
  match target with
  | none => ([], some errTargetMissing)
  | some target =>
    match channels with
    | none => ([], some errChannelsChanMissing)
    | some channels => forwardChannels ctx target channels

/-- The turn of a call; the deferred `Close` belongs to no turn. -/
def Event.turn? : Event → Option Nat
  | .Receive i => some i
  | .SendRequest i _ _ _ => some i
  | .Reply i _ _ => some i
  | .OpenChannel i _ _ => some i
  | .Reject i _ _ => some i
  | .Accept i => some i
  | .GoHandle i _ _ => some i
  | .Debug i _ _ _ => some i
  | .Error i _ _ => some i
  | .Close => none

/-- The calls of turn `i` in a trace, in order. -/
def turnOf (i : Nat) (trace : List Event) : List Event :=
  trace.filter fun ev => decide (ev.turn? = some i)

/-- A call is a `Reply`. -/
def Event.isReply : Event → Bool
  | .Reply _ _ _ => true
  | _ => false

/-- The replies given to the inbound request of turn `i`, in order. -/
def repliesTo (i : Nat) (trace : List Event) : List Event :=
  (turnOf i trace).filter Event.isReply

/-- The `SendRequest` calls of a trace, in order: name, wantReply, payload. -/
def sendRequests (trace : List Event) : List (String × Bool × Bytes) :=
  trace.filterMap fun ev =>
    match ev with
    | .SendRequest _ name wantReply payload => some (name, wantReply, payload)
    | _ => none

/-- The `Reply` calls of a trace, in order: turn of the request replied to, ok,
payload. -/
def replies (trace : List Event) : List (Nat × Bool × Bytes) :=
  trace.filterMap fun ev =>
    match ev with
    | .Reply i ok payload => some (i, ok, payload)
    | _ => none

/-- The `"env"` requests synthesized in turn `i` for the listed entries. -/
def envRequests (i : Nat) (entries : List (String × String)) : List Event :=
  entries.map fun (k, v) =>
    Event.SendRequest i "env" false (encoding.String k ++ encoding.String v)

/-- The turn of the full sequence that corresponds to turn `j` of the sequence
with item `i` left out. -/
def skipTurn (i j : Nat) : Nat := if j < i then j else j + 1

/-- The context as a loop sees it that runs on the sequence with item `i` left
out while every other item is processed at the same moment as before. -/
def Context.without (ctx : Context) (i : Nat) : Context :=
  ⟨fun j => ctx.Err (skipTurn i j), fun j => ctx.Environment (skipTurn i j)⟩

/-- The target as a loop sees it that runs on the sequence with item `i` left
out while every other item is processed at the same moment as before. -/
def Client.without (target : Client) (i : Nat) : Client :=
  ⟨fun j => target.SendRequest (skipTurn i j), fun j => target.OpenChannel (skipTurn i j)⟩

/-- Renumbering the turns of a call. -/
def Event.mapTurn (f : Nat → Nat) : Event → Event
  | .Receive i => .Receive (f i)
  | .SendRequest i name wantReply payload => .SendRequest (f i) name wantReply payload
  | .Reply i ok payload => .Reply (f i) ok payload
  | .OpenChannel i name data => .OpenChannel (f i) name data
  | .Reject i reason message => .Reject (f i) reason message
  | .Accept i => .Accept (f i)
  | .GoHandle i c type => .GoHandle (f i) c type
  | .Debug i msg type result => .Debug (f i) msg type result
  | .Error i msg err => .Error (f i) msg err
  | .Close => .Close

/-! ## Concrete inputs -/

/-- A target whose `SendRequest` always fails and whose `OpenChannel` always
fails with a plain (not `*ssh.OpenChannelError`) error. -/
def deadTarget : Client where
  SendRequest := fun _ _ _ _ => (false, [], some (errorsNew "EOF"))
  OpenChannel := fun _ _ _ => (0, 0, some (errorsNew "EOF"))

/-- A global request that wants a reply, with a working reply sink. -/
def keepalive : Request := ⟨"keepalive@openssh.com", true, [], fun _ _ => none⟩

/-- A context that is never cancelled and carries no environment. -/
def liveContext : Context := ⟨fun _ => none, fun _ => []⟩

/-- A context that is cancelled from the start. -/
def cancelledContext : Context := ⟨fun _ => some (errorsNew "context canceled"), fun _ => []⟩

/-- A structured refusal `&ssh.OpenChannelError{Reason: 2, Message: "no route"}`. -/
def refusal : GoError := ⟨"ssh: rejected: connect failed (no route)", some (2, "no route")⟩

/-- A target whose `OpenChannel` always answers with `refusal`. -/
def refusingTarget : Client where
  SendRequest := fun _ _ _ _ => (false, [], none)
  OpenChannel := fun _ _ _ => (0, 0, some refusal)

/-- A `"session"` channel-open notification whose `Accept` and `Reject` work. -/
def sessionOpen : NewChannel := ⟨"session", [], (1, 2, none), fun _ _ => none⟩

/-- A `"session"` channel-open notification whose `Reject` fails. -/
def brokenOpen : NewChannel := ⟨"session", [], (1, 2, none), fun _ _ => some (errorsNew "EOF")⟩

/-- A notification whose `Accept` fails. -/
def unacceptable : NewChannel :=
  ⟨"direct-tcpip", [9], (0, 0, some (errorsNew "EOF")), fun _ _ => none⟩

/-- A target that answers every global request with `ok` on even turns, echoes
the payload followed by the turn, and opens every channel. -/
def echoTarget : Client where
  SendRequest := fun i _ _ payload => (i % 2 == 0, payload ++ [i], none)
  OpenChannel := fun i _ _ => (10 + i, 20 + i, none)

/-- A target whose `SendRequest` fails in turn 1 only. -/
def flakyTarget : Client where
  SendRequest := fun i _ _ payload => (true, payload, if i = 1 then some (errorsNew "EOF") else none)
  OpenChannel := fun _ _ _ => (0, 0, none)

/-- A global request that wants no reply. -/
def tcpipForward : Request := ⟨"tcpip-forward", false, [1, 2], fun _ _ => none⟩

/-- A global request that wants a reply. -/
def cancelForward : Request := ⟨"cancel-tcpip-forward", true, [3], fun _ _ => none⟩

/-- Three inbound global requests. -/
def threeRequests : List Request := [keepalive, tcpipForward, cancelForward]

/-- A context whose environment map is `{"LANG": "C"}`. -/
def langContext : Context := ⟨fun _ => none, fun _ => [("LANG", "C")]⟩

/-- A destination channel that accepts every request. -/
def okChannel : Channel := ⟨fun _ _ _ _ => (true, none)⟩

/-- A destination channel whose `SendRequest` fails in turn 1 only. -/
def flakyChannel : Channel :=
  ⟨fun i _ _ _ => (true, if i = 1 then some (errorsNew "EOF") else none)⟩

/-- An `"exec"` channel request that wants a reply. -/
def execRequest : Request := ⟨"exec", true, [0, 0, 0, 2, 108, 115], fun _ _ => none⟩

/-- A `"window-change"` channel request that wants no reply. -/
def windowChange : Request := ⟨"window-change", false, [], fun _ _ => none⟩

/-- A loop body is turn-local: each of its calls carries its own turn, and none
of them is a `Receive`. -/
def TurnLocal {α : Type} (body : Nat → α → List Event × Option GoError) : Prop :=
  ∀ i x, ∀ ev ∈ (body i x).1, ev.turn? = some i ∧ ev ≠ Event.Receive i

/-! ## The `range` loop -/

theorem forRange_cons_ret {α : Type} (body : Nat → α → List Event × Option GoError)
    (i : Nat) (x : α) (rest : List α) (e : GoError) (h : (body i x).2 = some e) :
    forRange body i (x :: rest) = (Event.Receive i :: (body i x).1, some e) := by
  rcases hb : body i x with ⟨evs, r⟩
  rw [hb] at h
  simp only at h
  subst h
  simp [forRange, hb]

theorem forRange_cons_next {α : Type} (body : Nat → α → List Event × Option GoError)
    (i : Nat) (x : α) (rest : List α) (h : (body i x).2 = none) :
    forRange body i (x :: rest) =
      (Event.Receive i :: (body i x).1 ++ (forRange body (i + 1) rest).1,
        (forRange body (i + 1) rest).2) := by
  rcases hb : body i x with ⟨evs, r⟩
  rw [hb] at h
  simp only at h
  subst h
  simp [forRange, hb]

theorem forRange_turn_bounds {α : Type} {body : Nat → α → List Event × Option GoError}
    (hb : TurnLocal body) :
    ∀ (l : List α) (i0 : Nat) (ev : Event), ev ∈ (forRange body i0 l).1 →
      ∃ j, ev.turn? = some j ∧ i0 ≤ j ∧ j < i0 + l.length := by
  intro l
  induction l with
  | nil => intro i0 ev h; simp [forRange] at h
  | cons x rest ih =>
    intro i0 ev h
    have own : ev = Event.Receive i0 ∨ ev ∈ (body i0 x).1 →
        ∃ j, ev.turn? = some j ∧ i0 ≤ j ∧ j < i0 + (x :: rest).length := by
      rintro (rfl | hm)
      · exact ⟨i0, rfl, le_refl _, by simp⟩
      · exact ⟨i0, (hb i0 x ev hm).1, le_refl _, by simp⟩
    cases hr : (body i0 x).2 with
    | some e =>
      rw [forRange_cons_ret body i0 x rest e hr] at h
      simp only [List.mem_cons] at h
      exact own h
    | none =>
      rw [forRange_cons_next body i0 x rest hr] at h
      simp only [List.cons_append, List.mem_cons, List.mem_append] at h
      rcases h with h | h | h
      · exact own (Or.inl h)
      · exact own (Or.inr h)
      · obtain ⟨j, hj, h1, h2⟩ := ih (i0 + 1) ev h
        refine ⟨j, hj, by omega, ?_⟩
        simp only [List.length_cons]
        omega

theorem forRange_append {α : Type} (body : Nat → α → List Event × Option GoError) :
    ∀ (pre rest : List α) (i0 : Nat), (forRange body i0 pre).2 = none →
      forRange body i0 (pre ++ rest) =
        ((forRange body i0 pre).1 ++ (forRange body (i0 + pre.length) rest).1,
          (forRange body (i0 + pre.length) rest).2) := by
  intro pre
  induction pre with
  | nil => intro rest i0 _; simp [forRange]
  | cons x pre ih =>
    intro rest i0 h
    cases hr : (body i0 x).2 with
    | some e =>
      rw [forRange_cons_ret body i0 x pre e hr] at h
      simp at h
    | none =>
      rw [forRange_cons_next body i0 x pre hr] at h
      simp only at h
      rw [List.cons_append, forRange_cons_next body i0 x (pre ++ rest) hr,
        forRange_cons_next body i0 x pre hr, ih rest (i0 + 1) h]
      have : i0 + 1 + pre.length = i0 + (x :: pre).length := by
        simp only [List.length_cons]; omega
      simp [this]

theorem forRange_reached {α : Type} {body : Nat → α → List Event × Option GoError}
    (hb : TurnLocal body) :
    ∀ (pre rest : List α) (i0 : Nat),
      Event.Receive (i0 + pre.length) ∈ (forRange body i0 (pre ++ rest)).1 →
      (forRange body i0 pre).2 = none := by
  intro pre
  induction pre with
  | nil => intro rest i0 _; simp [forRange]
  | cons x pre ih =>
    intro rest i0 h
    have hne : Event.Receive (i0 + (x :: pre).length) ≠ Event.Receive i0 := by
      simp
    have hnb : Event.Receive (i0 + (x :: pre).length) ∉ (body i0 x).1 := by
      intro hm
      have := (hb i0 x _ hm).1
      simp [Event.turn?] at this
    cases hr : (body i0 x).2 with
    | some e =>
      rw [List.cons_append, forRange_cons_ret body i0 x (pre ++ rest) e hr] at h
      simp only [List.mem_cons] at h
      rcases h with h | h
      · exact absurd h hne
      · exact absurd h hnb
    | none =>
      rw [List.cons_append, forRange_cons_next body i0 x (pre ++ rest) hr] at h
      simp only [List.cons_append, List.mem_cons, List.mem_append] at h
      rw [forRange_cons_next body i0 x pre hr]
      rcases h with h | h | h
      · exact absurd h hne
      · exact absurd h hnb
      · have e1 : i0 + (x :: pre).length = i0 + 1 + pre.length := by
          simp only [List.length_cons]; omega
        rw [e1] at h
        exact ih rest (i0 + 1) h

theorem split_of_getElem? {α : Type} :
    ∀ (l : List α) (i : Nat) (x : α), l[i]? = some x →
      l = l.take i ++ x :: l.drop (i + 1) ∧ (l.take i).length = i := by
  intro l
  induction l with
  | nil => intro i x h; simp at h
  | cons a l ih =>
    intro i x h
    cases i with
    | zero => simp at h; simp [h]
    | succ i =>
      simp only [List.getElem?_cons_succ] at h
      obtain ⟨h1, h2⟩ := ih i x h
      refine ⟨?_, by simp [h2]⟩
      simp only [List.take_succ_cons, List.drop_succ_cons, List.cons_append]
      rw [← h1]

/-- The shape of a run of a `range` loop around a turn that is reached: the
calls of earlier turns, the `Receive` and the calls of the body, the calls of
later turns; nothing follows when the body returns. -/
theorem forRange_at {α : Type} {body : Nat → α → List Event × Option GoError}
    (hb : TurnLocal body) (l : List α) (i : Nat) (x : α) (hx : l[i]? = some x)
    (hr : Event.Receive i ∈ (forRange body 0 l).1) :
    ∃ before after, (forRange body 0 l).1 = before ++ Event.Receive i :: (body i x).1 ++ after ∧
      (∀ ev ∈ before, ∃ j, ev.turn? = some j ∧ j < i) ∧
      (∀ ev ∈ after, ∃ j, ev.turn? = some j ∧ i < j) ∧
      (∀ e, (body i x).2 = some e → after = [] ∧ (forRange body 0 l).2 = some e) ∧
      ((body i x).2 = none → (after, (forRange body 0 l).2) = forRange body (i + 1) (l.drop (i + 1))) := by
  obtain ⟨hl, hlen⟩ := split_of_getElem? l i x hx
  have hr2 : Event.Receive (0 + (l.take i).length) ∈
      (forRange body 0 (l.take i ++ x :: l.drop (i + 1))).1 := by
    rw [← hl, hlen, Nat.zero_add]; exact hr
  have hpre := forRange_reached hb _ _ _ hr2
  have happ := forRange_append body (l.take i) (x :: l.drop (i + 1)) 0 hpre
  rw [← hl, hlen, Nat.zero_add] at happ
  have hbefore : ∀ ev ∈ (forRange body 0 (l.take i)).1, ∃ j, ev.turn? = some j ∧ j < i := by
    intro ev hev
    obtain ⟨j, hj, _, h2⟩ := forRange_turn_bounds hb _ _ ev hev
    exact ⟨j, hj, by omega⟩
  cases hres : (body i x).2 with
  | some e =>
    rw [forRange_cons_ret body i x _ e hres] at happ
    refine ⟨(forRange body 0 (l.take i)).1, [], ?_, hbefore, by simp, ?_, by simp⟩
    · rw [happ]; simp
    · intro e' he'; rw [happ]; simp [← he']
  | none =>
    rw [forRange_cons_next body i x _ hres] at happ
    refine ⟨(forRange body 0 (l.take i)).1, (forRange body (i + 1) (l.drop (i + 1))).1,
      ?_, hbefore, ?_, by simp, ?_⟩
    · rw [happ]; simp
    · intro ev hev
      obtain ⟨j, hj, h1, _⟩ := forRange_turn_bounds hb _ _ ev hev
      exact ⟨j, hj, by omega⟩
    · intro _; rw [happ]

theorem turnOf_append (i : Nat) (a b : List Event) :
    turnOf i (a ++ b) = turnOf i a ++ turnOf i b := by
  simp [turnOf]

theorem turnOf_eq_nil (i : Nat) (t : List Event)
    (h : ∀ ev ∈ t, ev.turn? ≠ some i) : turnOf i t = [] := by
  simp only [turnOf, List.filter_eq_nil_iff, decide_eq_true_eq]
  exact h

theorem turnOf_eq_self (i : Nat) (t : List Event)
    (h : ∀ ev ∈ t, ev.turn? = some i) : turnOf i t = t := by
  simp only [turnOf, List.filter_eq_self, decide_eq_true_eq]
  exact h

theorem turnOf_close (i : Nat) (t : List Event) :
    turnOf i (t ++ [Event.Close]) = turnOf i t := by
  simp [turnOf, Event.turn?]

/-- The calls of a reached turn are the `Receive` and the calls of the body. -/
theorem turnOf_forRange {α : Type} {body : Nat → α → List Event × Option GoError}
    (hb : TurnLocal body) (l : List α) (i : Nat) (x : α) (hx : l[i]? = some x)
    (hr : Event.Receive i ∈ (forRange body 0 l).1) :
    turnOf i (forRange body 0 l).1 = Event.Receive i :: (body i x).1 := by
  obtain ⟨before, after, ht, hbef, haft, -, -⟩ := forRange_at hb l i x hx hr
  rw [ht, turnOf_append, turnOf_append, turnOf_eq_nil i before, turnOf_eq_nil i after,
    turnOf_eq_self]
  · simp
  · intro ev hev
    rcases List.mem_cons.1 hev with rfl | hm
    · rfl
    · exact (hb i x ev hm).1
  · intro ev hev hc
    obtain ⟨j, hj, hlt⟩ := haft ev hev
    rw [hj] at hc
    simp only [Option.some.injEq] at hc
    omega
  · intro ev hev hc
    obtain ⟨j, hj, hlt⟩ := hbef ev hev
    rw [hj] at hc
    simp only [Option.some.injEq] at hc
    omega

/-- When the body of a reached turn returns, the loop returns the same error and
no later turn takes place. -/
theorem forRange_stops {α : Type} {body : Nat → α → List Event × Option GoError}
    (hb : TurnLocal body) (l : List α) (i : Nat) (x : α) (hx : l[i]? = some x)
    (hr : Event.Receive i ∈ (forRange body 0 l).1) (e : GoError)
    (he : (body i x).2 = some e) :
    (forRange body 0 l).2 = some e ∧ ∀ j, i < j → turnOf j (forRange body 0 l).1 = [] := by
  obtain ⟨before, after, ht, hbef, -, hret, -⟩ := forRange_at hb l i x hx hr
  obtain ⟨hnil, hres⟩ := hret e he
  refine ⟨hres, ?_⟩
  intro j hj
  rw [ht, hnil]
  apply turnOf_eq_nil
  intro ev hev hc
  simp only [List.append_nil, List.mem_append, List.mem_cons] at hev
  rcases hev with h | rfl | h
  · obtain ⟨k, hk, hlt⟩ := hbef ev h
    rw [hk] at hc
    simp only [Option.some.injEq] at hc
    omega
  · simp only [Event.turn?, Option.some.injEq] at hc
    omega
  · rw [(hb i x ev h).1] at hc
    simp only [Option.some.injEq] at hc
    omega

/-- A loop none of whose bodies returns ends with `nil`. -/
theorem forRange_all_next {α : Type} (body : Nat → α → List Event × Option GoError) :
    ∀ (l : List α) (i0 : Nat),
      (∀ j x, l[j]? = some x → (body (i0 + j) x).2 = none) →
      (forRange body i0 l).2 = none := by
  intro l
  induction l with
  | nil => intro i0 _; simp [forRange]
  | cons a l ih =>
    intro i0 h
    have h0 : (body i0 a).2 = none := by simpa using h 0 a (by simp)
    rw [forRange_cons_next body i0 a l h0]
    apply ih
    intro j x hj
    have := h (j + 1) x (by simpa using hj)
    rwa [show i0 + 1 + j = i0 + (j + 1) by omega]

/-- A turn is reached when no earlier body returns. -/
theorem forRange_reach {α : Type} (body : Nat → α → List Event × Option GoError)
    (l : List α) (i : Nat) (x : α) (hx : l[i]? = some x)
    (h : ∀ j y, j < i → l[j]? = some y → (body j y).2 = none) :
    Event.Receive i ∈ (forRange body 0 l).1 := by
  obtain ⟨hl, hlen⟩ := split_of_getElem? l i x hx
  have hpre : (forRange body 0 (l.take i)).2 = none := by
    apply forRange_all_next
    intro j y hj
    rw [Nat.zero_add]
    have hlt : j < i := by
      by_contra hc
      rw [List.getElem?_eq_none (by rw [hlen]; omega)] at hj
      exact Option.noConfusion hj
    refine h j y hlt ?_
    rw [List.getElem?_take_of_lt hlt] at hj
    exact hj
  have happ := forRange_append body (l.take i) (x :: l.drop (i + 1)) 0 hpre
  rw [← hl, hlen, Nat.zero_add] at happ
  rw [happ]
  simp only [List.mem_append]
  right
  cases hr : (body i x).2 with
  | some e => rw [forRange_cons_ret body i x _ e hr]; simp
  | none => rw [forRange_cons_next body i x _ hr]; simp

theorem forRange_no_close {α : Type} {body : Nat → α → List Event × Option GoError}
    (hb : TurnLocal body) (l : List α) (i0 : Nat) :
    Event.Close ∉ (forRange body i0 l).1 := by
  intro h
  obtain ⟨j, hj, -, -⟩ := forRange_turn_bounds hb l i0 _ h
  simp [Event.turn?] at hj

theorem count_close {α : Type} {body : Nat → α → List Event × Option GoError}
    (hb : TurnLocal body) (l : List α) (i0 : Nat) :
    ((forRange body i0 l).1 ++ [Event.Close]).count Event.Close = 1 := by
  rw [List.count_append, List.count_eq_zero_of_not_mem (forRange_no_close hb l i0)]
  simp

/-! ## The three loop bodies -/

theorem forwardClientRequestsBody_turnLocal (target : Client) :
    TurnLocal (forwardClientRequestsBody target) := by
  intro i req ev hev
  unfold forwardClientRequestsBody at hev
  rcases hs : target.SendRequest i req.Typ req.WantReply req.Payload with ⟨ok, payload, err⟩
  rw [hs] at hev
  cases err with
  | some e =>
    simp only [List.mem_singleton] at hev
    subst hev
    simp [Event.turn?]
  | none =>
    simp only at hev
    split at hev
    · split at hev
      all_goals
        simp only [List.cons_append, List.nil_append, List.mem_cons, List.mem_singleton,
          List.not_mem_nil, or_false] at hev
        rcases hev with rfl | rfl | rfl <;> simp [Event.turn?]
    · simp only [List.cons_append, List.nil_append, List.mem_cons, List.mem_singleton,
        List.not_mem_nil, or_false] at hev
      rcases hev with rfl | rfl <;> simp [Event.turn?]

theorem forwardClientRequestsBody_sendErr (target : Client) (i : Nat) (req : Request)
    (e : GoError)
    (h : (target.SendRequest i req.Typ req.WantReply req.Payload).2.2 = some e) :
    forwardClientRequestsBody target i req =
      ([Event.SendRequest i req.Typ req.WantReply req.Payload], some e) := by
  unfold forwardClientRequestsBody
  rcases hs : target.SendRequest i req.Typ req.WantReply req.Payload with ⟨ok, payload, err⟩
  rw [hs] at h
  simp only at h
  subst h
  rfl

theorem forwardClientRequestsBody_noReply (target : Client) (i : Nat) (req : Request)
    (h : (target.SendRequest i req.Typ req.WantReply req.Payload).2.2 = none)
    (hw : req.WantReply = false) :
    forwardClientRequestsBody target i req =
      ([Event.SendRequest i req.Typ req.WantReply req.Payload,
        Event.Debug i "Forward ssh request" req.Typ
          (target.SendRequest i req.Typ req.WantReply req.Payload).1], none) := by
  unfold forwardClientRequestsBody
  rcases hs : target.SendRequest i req.Typ req.WantReply req.Payload with ⟨ok, payload, err⟩
  rw [hs] at h
  simp only at h
  subst h
  simp [hw]

theorem forwardClientRequestsBody_replyErr (target : Client) (i : Nat) (req : Request)
    (e : GoError)
    (h : (target.SendRequest i req.Typ req.WantReply req.Payload).2.2 = none)
    (hw : req.WantReply = true)
    (hr : req.Reply (target.SendRequest i req.Typ req.WantReply req.Payload).1
      (target.SendRequest i req.Typ req.WantReply req.Payload).2.1 = some e) :
    forwardClientRequestsBody target i req =
      ([Event.SendRequest i req.Typ req.WantReply req.Payload,
        Event.Reply i (target.SendRequest i req.Typ req.WantReply req.Payload).1
          (target.SendRequest i req.Typ req.WantReply req.Payload).2.1], some e) := by
  unfold forwardClientRequestsBody
  rcases hs : target.SendRequest i req.Typ req.WantReply req.Payload with ⟨ok, payload, err⟩
  rw [hs] at h hr
  simp only at h hr
  subst h
  simp [hw, hr]

theorem forwardClientRequestsBody_replied (target : Client) (i : Nat) (req : Request)
    (h : (target.SendRequest i req.Typ req.WantReply req.Payload).2.2 = none)
    (hw : req.WantReply = true)
    (hr : req.Reply (target.SendRequest i req.Typ req.WantReply req.Payload).1
      (target.SendRequest i req.Typ req.WantReply req.Payload).2.1 = none) :
    forwardClientRequestsBody target i req =
      ([Event.SendRequest i req.Typ req.WantReply req.Payload,
        Event.Reply i (target.SendRequest i req.Typ req.WantReply req.Payload).1
          (target.SendRequest i req.Typ req.WantReply req.Payload).2.1,
        Event.Debug i "Forward ssh request" req.Typ
          (target.SendRequest i req.Typ req.WantReply req.Payload).1], none) := by
  unfold forwardClientRequestsBody
  rcases hs : target.SendRequest i req.Typ req.WantReply req.Payload with ⟨ok, payload, err⟩
  rw [hs] at h hr
  simp only at h hr
  subst h
  simp [hw, hr]

/-- The `"env"` requests that the body of `forwardChannelRequests` sends before
relaying a request. -/
theorem forwardChannelRequestsBody_envs (ctx : Context) (target : Channel) (i : Nat)
    (req : Request) :
    ∃ tail, (forwardChannelRequestsBody ctx target i req).1 =
        (if req.Typ = "shell" ∨ req.Typ = "exec" then envRequests i (ctx.Environment i) else [])
          ++ Event.SendRequest i req.Typ req.WantReply req.Payload :: tail ∧
      ∀ ev ∈ tail, ∀ n w p, ev ≠ Event.SendRequest i n w p := by
  unfold forwardChannelRequestsBody
  rcases hs : target.SendRequest i req.Typ req.WantReply req.Payload with ⟨ok, err⟩
  have henv : (if (req.Typ == "shell" || req.Typ == "exec") = true then
      (List.map (fun x => match x with
        | (k, v) => Event.SendRequest i "env" false (encoding.String k ++ encoding.String v))
        (ctx.Environment i)) else []) =
      (if req.Typ = "shell" ∨ req.Typ = "exec" then envRequests i (ctx.Environment i) else []) := by
    simp [envRequests]
  simp only [henv]
  cases err with
  | some e => exact ⟨[], by simp, by simp⟩
  | none =>
    simp only
    split
    · split
      · exact ⟨[Event.Reply i ok []], by simp, by simp⟩
      · exact ⟨[Event.Reply i ok [], Event.Debug i "Forward channel request" req.Typ ok],
          by simp, by simp⟩
    · exact ⟨[Event.Debug i "Forward channel request" req.Typ ok], by simp, by simp⟩

theorem forwardChannelRequestsBody_turnLocal (ctx : Context) (target : Channel) :
    TurnLocal (forwardChannelRequestsBody ctx target) := by
  intro i req ev hev
  unfold forwardChannelRequestsBody at hev
  rcases hs : target.SendRequest i req.Typ req.WantReply req.Payload with ⟨ok, err⟩
  rw [hs] at hev
  have henv : ∀ ev ∈ (if (req.Typ == "shell" || req.Typ == "exec") = true then
      (List.map (fun x => match x with
        | (k, v) => Event.SendRequest i "env" false (encoding.String k ++ encoding.String v))
        (ctx.Environment i)) else []), ev.turn? = some i ∧ ev ≠ Event.Receive i := by
    intro ev hev
    split at hev
    · simp only [List.mem_map] at hev
      obtain ⟨⟨k, v⟩, -, rfl⟩ := hev
      simp [Event.turn?]
    · simp at hev
  cases err with
  | some e =>
    simp only [List.mem_append, List.mem_singleton] at hev
    rcases hev with h | rfl
    · exact henv ev h
    · simp [Event.turn?]
  | none =>
    simp only at hev
    split at hev
    · split at hev
      all_goals
        simp only [List.append_assoc, List.mem_append, List.mem_cons, List.mem_singleton,
          List.not_mem_nil, or_false] at hev
        rcases hev with h | rfl | rfl | rfl
        · exact henv ev h
        all_goals simp [Event.turn?]
    · simp only [List.append_assoc, List.mem_append, List.mem_cons, List.mem_singleton,
        List.not_mem_nil, or_false] at hev
      rcases hev with h | rfl | rfl
      · exact henv ev h
      all_goals simp [Event.turn?]

/-! ## Global request relay -/

theorem forwardClientRequests_loop_ok (target : Client) :
    ∀ (l : List Request) (i0 : Nat),
      (∀ j (r : Request), l[j]? = some r →
        (target.SendRequest (i0 + j) r.Typ r.WantReply r.Payload).2.2 = none) →
      (∀ j (r : Request), l[j]? = some r → r.WantReply = true →
        r.Reply (target.SendRequest (i0 + j) r.Typ r.WantReply r.Payload).1
          (target.SendRequest (i0 + j) r.Typ r.WantReply r.Payload).2.1 = none) →
      sendRequests (forRange (forwardClientRequestsBody target) i0 l).1 =
          l.map (fun r => (r.Typ, r.WantReply, r.Payload)) ∧
        replies (forRange (forwardClientRequestsBody target) i0 l).1 =
          ((l.enumFrom i0).filter (fun p => p.2.WantReply)).map (fun p =>
            (p.1, (target.SendRequest p.1 p.2.Typ p.2.WantReply p.2.Payload).1,
              (target.SendRequest p.1 p.2.Typ p.2.WantReply p.2.Payload).2.1)) ∧
        (forRange (forwardClientRequestsBody target) i0 l).2 = none := by
  intro l
  induction l with
  | nil => intro i0 _ _; simp [forRange, sendRequests, replies]
  | cons a l ih =>
    intro i0 hsend hreply
    have hs0 := hsend 0 a (by simp)
    have hr0 := hreply 0 a (by simp)
    rw [Nat.add_zero] at hs0 hr0
    have hsend' : ∀ j (r : Request), l[j]? = some r →
        (target.SendRequest (i0 + 1 + j) r.Typ r.WantReply r.Payload).2.2 = none := by
      intro j r hj
      have := hsend (j + 1) r (by simpa using hj)
      rwa [show i0 + 1 + j = i0 + (j + 1) by omega]
    have hreply' : ∀ j (r : Request), l[j]? = some r → r.WantReply = true →
        r.Reply (target.SendRequest (i0 + 1 + j) r.Typ r.WantReply r.Payload).1
          (target.SendRequest (i0 + 1 + j) r.Typ r.WantReply r.Payload).2.1 = none := by
      intro j r hj hw
      have := hreply (j + 1) r (by simpa using hj) hw
      rwa [show i0 + 1 + j = i0 + (j + 1) by omega]
    obtain ⟨ih1, ih2, ih3⟩ := ih (i0 + 1) hsend' hreply'
    cases hw : a.WantReply with
    | false =>
      have hbody := forwardClientRequestsBody_noReply target i0 a hs0 hw
      rw [forRange_cons_next _ i0 a l (by rw [hbody]), hbody]
      refine ⟨?_, ?_, ih3⟩
      · simp only [sendRequests] at ih1 ⊢
        simp [List.filterMap_cons, ih1]
      · simp only [replies] at ih2 ⊢
        simp [List.filterMap_cons, ih2, List.enumFrom_cons, hw]
    | true =>
      have hbody := forwardClientRequestsBody_replied target i0 a hs0 hw (hr0 hw)
      rw [forRange_cons_next _ i0 a l (by rw [hbody]), hbody]
      refine ⟨?_, ?_, ih3⟩
      · simp only [sendRequests] at ih1 ⊢
        simp [List.filterMap_cons, ih1]
      · simp only [replies] at ih2 ⊢
        simp [List.filterMap_cons, ih2, List.enumFrom_cons, hw]

theorem sendRequests_close (t : List Event) :
    sendRequests (t ++ [Event.Close]) = sendRequests t := by
  simp [sendRequests, List.filterMap_append]

theorem replies_close (t : List Event) : replies (t ++ [Event.Close]) = replies t := by
  simp [replies, List.filterMap_append]

/-- C1. Global request relay is FIFO and reflects replies: when every
`SendRequest` on the target and every requested `Reply` succeeds, the target
receives exactly one `SendRequest` per inbound request, carrying its type,
wantReply and payload unchanged, in arrival order; the replies are exactly, in
the same order, one `Reply(ok, payload)` with the target's answer for each
request with `WantReply = true`; and `forwardClientRequests` returns `nil`. -/
theorem forwardClientRequests_fifo (target : Client) (requests : List Request)
    (hsend : ∀ i (r : Request), requests[i]? = some r →
      (target.SendRequest i r.Typ r.WantReply r.Payload).2.2 = none)
    (hreply : ∀ i (r : Request), requests[i]? = some r → r.WantReply = true →
      r.Reply (target.SendRequest i r.Typ r.WantReply r.Payload).1
        (target.SendRequest i r.Typ r.WantReply r.Payload).2.1 = none) :
    sendRequests (forwardClientRequests target requests).1 =
        requests.map (fun r => (r.Typ, r.WantReply, r.Payload)) ∧
      replies (forwardClientRequests target requests).1 =
        (requests.enum.filter (fun p => p.2.WantReply)).map (fun p =>
          (p.1, (target.SendRequest p.1 p.2.Typ p.2.WantReply p.2.Payload).1,
            (target.SendRequest p.1 p.2.Typ p.2.WantReply p.2.Payload).2.1)) ∧
      (forwardClientRequests target requests).2 = none := by
  obtain ⟨h1, h2, h3⟩ := forwardClientRequests_loop_ok target requests 0
    (by intro j r hj; rw [Nat.zero_add]; exact hsend j r hj)
    (by intro j r hj hw; rw [Nat.zero_add]; exact hreply j r hj hw)
  simp only [forwardClientRequests]
  refine ⟨?_, ?_, h3⟩
  · rw [sendRequests_close]; exact h1
  · rw [replies_close]; exact h2

theorem forwardClientRequestsBody_ok (target : Client) (i : Nat) (req : Request)
    (h : (target.SendRequest i req.Typ req.WantReply req.Payload).2.2 = none)
    (hr : req.WantReply = true →
      req.Reply (target.SendRequest i req.Typ req.WantReply req.Payload).1
        (target.SendRequest i req.Typ req.WantReply req.Payload).2.1 = none) :
    (forwardClientRequestsBody target i req).2 = none := by
  cases hw : req.WantReply with
  | false => rw [forwardClientRequestsBody_noReply target i req h hw]
  | true => rw [forwardClientRequestsBody_replied target i req h hw (hr hw)]

theorem mem_close_iff (ev : Event) (t : List Event) (h : ev ≠ Event.Close) :
    ev ∈ t ++ [Event.Close] ↔ ev ∈ t := by
  simp [h]

/-- C2. Abort on send failure in the global request relay: when the requests
before the one of turn `k` are sent (and replied to, where requested) without
error and the target's `SendRequest` fails with `e` on the request of turn `k`,
`forwardClientRequests` returns `e`; the calls of turn `k` are the delivery of
the request and that one failing `SendRequest`, so no `Reply` and no further
`SendRequest` is made for it; no call at all is made for a later request; and
`Close` is called on the target exactly once. -/
theorem forwardClientRequests_abort_on_send_failure (target : Client)
    (requests : List Request) (k : Nat) (rk : Request) (e : GoError)
    (hk : requests[k]? = some rk)
    (hsend : ∀ j (r : Request), j < k → requests[j]? = some r →
      (target.SendRequest j r.Typ r.WantReply r.Payload).2.2 = none)
    (hreply : ∀ j (r : Request), j < k → requests[j]? = some r → r.WantReply = true →
      r.Reply (target.SendRequest j r.Typ r.WantReply r.Payload).1
        (target.SendRequest j r.Typ r.WantReply r.Payload).2.1 = none)
    (hfail : (target.SendRequest k rk.Typ rk.WantReply rk.Payload).2.2 = some e) :
    (forwardClientRequests target requests).2 = some e ∧
      turnOf k (forwardClientRequests target requests).1 =
        [Event.Receive k, Event.SendRequest k rk.Typ rk.WantReply rk.Payload] ∧
      (∀ j, k < j → turnOf j (forwardClientRequests target requests).1 = []) ∧
      (forwardClientRequests target requests).1.count Event.Close = 1 := by
  have hb := forwardClientRequestsBody_turnLocal target
  have hreach : Event.Receive k ∈ (forRange (forwardClientRequestsBody target) 0 requests).1 :=
    forRange_reach _ requests k rk hk (fun j y hj hy =>
      forwardClientRequestsBody_ok target j y (hsend j y hj hy) (hreply j y hj hy))
  have hbody := forwardClientRequestsBody_sendErr target k rk e hfail
  obtain ⟨h1, h2⟩ := forRange_stops hb requests k rk hk hreach e (by rw [hbody])
  have h3 := turnOf_forRange hb requests k rk hk hreach
  rw [hbody] at h3
  simp only [forwardClientRequests]
  refine ⟨h1, ?_, ?_, count_close hb requests 0⟩
  · rw [turnOf_close]; exact h3
  · intro j hj; rw [turnOf_close]; exact h2 j hj

/-- The replies of the body of the global relay: one, carrying the target's
answer, when a reply is wanted and the send succeeded; none otherwise. -/
theorem forwardClientRequestsBody_replies (target : Client) (i : Nat) (req : Request) :
    (forwardClientRequestsBody target i req).1.filter Event.isReply =
      if req.WantReply = true ∧
          (target.SendRequest i req.Typ req.WantReply req.Payload).2.2 = none then
        [Event.Reply i (target.SendRequest i req.Typ req.WantReply req.Payload).1
          (target.SendRequest i req.Typ req.WantReply req.Payload).2.1]
      else [] := by
  cases hs : (target.SendRequest i req.Typ req.WantReply req.Payload).2.2 with
  | some e =>
    rw [forwardClientRequestsBody_sendErr target i req e hs]
    simp [Event.isReply]
  | none =>
    cases hw : req.WantReply with
    | false =>
      rw [forwardClientRequestsBody_noReply target i req hs hw]
      simp [Event.isReply]
    | true =>
      cases hr : req.Reply (target.SendRequest i req.Typ req.WantReply req.Payload).1
          (target.SendRequest i req.Typ req.WantReply req.Payload).2.1 with
      | some e =>
        rw [forwardClientRequestsBody_replyErr target i req e hs hw hr]
        simp [Event.isReply, hw]
      | none =>
        rw [forwardClientRequestsBody_replied target i req hs hw hr]
        simp [Event.isReply, hw]

/-- C3 (as stated) fails: a request that wants a reply is taken from the inbound
sequence, the target's `SendRequest` fails, and no reply is sent to it. -/
theorem reply_iff_wantReply_counterexample :
    Event.Receive 0 ∈ (forwardClientRequests deadTarget [keepalive]).1 ∧
      ¬ ((repliesTo 0 (forwardClientRequests deadTarget [keepalive]).1).length = 1 ↔
        keepalive.WantReply = true) := by
  decide

/-- C3 (amended). For every request taken from the inbound sequence of the
global request relay, `Reply` is called on it exactly once, with the target's
answer, when its `WantReply` is true and the target's `SendRequest` for it
succeeded, and is not called on it otherwise; in particular a request with
`WantReply = false` never receives a reply. -/
theorem forwardClientRequests_reply_iff (target : Client) (requests : List Request)
    (i : Nat) (r : Request) (hi : requests[i]? = some r)
    (hrecv : Event.Receive i ∈ (forwardClientRequests target requests).1) :
    repliesTo i (forwardClientRequests target requests).1 =
      if r.WantReply = true ∧ (target.SendRequest i r.Typ r.WantReply r.Payload).2.2 = none then
        [Event.Reply i (target.SendRequest i r.Typ r.WantReply r.Payload).1
          (target.SendRequest i r.Typ r.WantReply r.Payload).2.1]
      else [] := by
  have hb := forwardClientRequestsBody_turnLocal target
  simp only [forwardClientRequests] at hrecv ⊢
  rw [mem_close_iff _ _ (by simp)] at hrecv
  rw [repliesTo, turnOf_close, turnOf_forRange hb requests i r hi hrecv, List.filter_cons]
  simp only [Event.isReply, Bool.false_eq_true, if_false]
  exact forwardClientRequestsBody_replies target i r

/-! ## Channel request relay -/

theorem decodeString_encoding (s : String) (rest : Bytes)
    (h : (stringBytes s).length < 2 ^ 32) :
    decodeString (encoding.String s ++ rest) = some (stringBytes s, rest) := by
  have hsum : (stringBytes s).length / 2 ^ 24 % 256 * 2 ^ 24 +
      (stringBytes s).length / 2 ^ 16 % 256 * 2 ^ 16 +
      (stringBytes s).length / 2 ^ 8 % 256 * 2 ^ 8 + (stringBytes s).length % 256 =
      (stringBytes s).length := by
    omega
  simp only [encoding.String, uint32be, Nat.mod_eq_of_lt h, List.cons_append, List.nil_append,
    decodeString, hsum]
  simp

theorem decodeEnv_encoding (k v : String) (hk : (stringBytes k).length < 2 ^ 32)
    (hv : (stringBytes v).length < 2 ^ 32) :
    decodeEnv (encoding.String k ++ encoding.String v) = some (stringBytes k, stringBytes v) := by
  have h2 := decodeString_encoding v [] hv
  rw [List.append_nil] at h2
  simp only [decodeEnv, decodeString_encoding k _ hk, h2]

theorem forwardChannelRequestsBody_eq (ctx : Context) (target : Channel) (i : Nat)
    (req : Request) :
    forwardChannelRequestsBody ctx target i req =
      match (target.SendRequest i req.Typ req.WantReply req.Payload).2 with
      | some e =>
        ((if req.Typ = "shell" ∨ req.Typ = "exec" then envRequests i (ctx.Environment i)
          else []) ++ [Event.SendRequest i req.Typ req.WantReply req.Payload], some e)
      | none =>
        if req.WantReply = true then
          match req.Reply (target.SendRequest i req.Typ req.WantReply req.Payload).1 [] with
          | some e =>
            ((if req.Typ = "shell" ∨ req.Typ = "exec" then envRequests i (ctx.Environment i)
              else []) ++ [Event.SendRequest i req.Typ req.WantReply req.Payload,
                Event.Reply i (target.SendRequest i req.Typ req.WantReply req.Payload).1 []],
              some e)
          | none =>
            ((if req.Typ = "shell" ∨ req.Typ = "exec" then envRequests i (ctx.Environment i)
              else []) ++ [Event.SendRequest i req.Typ req.WantReply req.Payload,
                Event.Reply i (target.SendRequest i req.Typ req.WantReply req.Payload).1 [],
                Event.Debug i "Forward channel request" req.Typ
                  (target.SendRequest i req.Typ req.WantReply req.Payload).1], none)
        else
          ((if req.Typ = "shell" ∨ req.Typ = "exec" then envRequests i (ctx.Environment i)
            else []) ++ [Event.SendRequest i req.Typ req.WantReply req.Payload,
              Event.Debug i "Forward channel request" req.Typ
                (target.SendRequest i req.Typ req.WantReply req.Payload).1], none) := by
  unfold forwardChannelRequestsBody
  rcases hs : target.SendRequest i req.Typ req.WantReply req.Payload with ⟨ok, err⟩
  have henv : (if (req.Typ == "shell" || req.Typ == "exec") = true then
      (List.map (fun x => match x with
        | (k, v) => Event.SendRequest i "env" false (encoding.String k ++ encoding.String v))
        (ctx.Environment i)) else []) =
      (if req.Typ = "shell" ∨ req.Typ = "exec" then envRequests i (ctx.Environment i) else []) := by
    simp [envRequests]
  simp only [henv]
  cases err with
  | some e => rfl
  | none =>
    simp only
    split
    · split <;> simp_all
    · simp

theorem envRequests_not_reply (i : Nat) (entries : List (String × String)) :
    (envRequests i entries).filter Event.isReply = [] := by
  simp only [envRequests, List.filter_eq_nil_iff, List.mem_map]
  rintro ev ⟨⟨k, v⟩, -, rfl⟩
  simp [Event.isReply]

theorem injected_not_reply (c : Prop) [Decidable c] (i : Nat)
    (entries : List (String × String)) :
    (if c then envRequests i entries else []).filter Event.isReply = [] := by
  split
  · exact envRequests_not_reply i entries
  · rfl

/-- The replies of the body of the channel request relay after a successful
send. -/
theorem forwardChannelRequestsBody_replies (ctx : Context) (target : Channel) (i : Nat)
    (req : Request) (h : (target.SendRequest i req.Typ req.WantReply req.Payload).2 = none) :
    (forwardChannelRequestsBody ctx target i req).1.filter Event.isReply =
      if req.WantReply = true then
        [Event.Reply i (target.SendRequest i req.Typ req.WantReply req.Payload).1 []]
      else [] := by
  rw [forwardChannelRequestsBody_eq, h]
  simp only
  split
  · split <;> simp [List.filter_append, injected_not_reply, Event.isReply]
  · simp [List.filter_append, injected_not_reply, Event.isReply]

/-- What the body of the channel request relay returns. -/
theorem forwardChannelRequestsBody_ret (ctx : Context) (target : Channel) (i : Nat)
    (req : Request) :
    (forwardChannelRequestsBody ctx target i req).2 =
      match (target.SendRequest i req.Typ req.WantReply req.Payload).2 with
      | some e => some e
      | none =>
        if req.WantReply = true then
          req.Reply (target.SendRequest i req.Typ req.WantReply req.Payload).1 []
        else none := by
  rw [forwardChannelRequestsBody_eq]
  split
  · rfl
  · split
    · split <;> simp_all
    · rfl

/-- C7. Environment injection precedes shell/exec: for every request taken by
`forwardChannelRequests` and every environment map `E` of the context (the
loop may visit its entries in any order), the calls of the request's turn are
its delivery, then the injected requests `envs`, then the `SendRequest` that
relays the request itself, then calls that are no `SendRequest`.  When the type
is `"shell"` or `"exec"`, `envs` holds exactly one `"env"` request per entry of
`E`, with `wantReply = false` and payload the SSH-string encoding of the key
followed by that of the value; for any other type `envs` is empty.  Such a
payload reads back as the key and the value (for strings whose length fits the
32-bit length prefix). -/
theorem forwardChannelRequests_env_before_shell_exec (ctx : Context) (target : Channel)
    (requests : List Request) (E : List (String × String)) (i : Nat) (r : Request)
    (hi : requests[i]? = some r)
    (hrecv : Event.Receive i ∈ (forwardChannelRequests ctx target requests).1)
    (hE : (ctx.Environment i).Perm E) :
    ∃ envs tail,
      turnOf i (forwardChannelRequests ctx target requests).1 =
        Event.Receive i :: (envs ++ Event.SendRequest i r.Typ r.WantReply r.Payload :: tail) ∧
      (∀ ev ∈ tail, ∀ n w p, ev ≠ Event.SendRequest i n w p) ∧
      (r.Typ = "shell" ∨ r.Typ = "exec" →
        envs.Perm (E.map fun kv =>
          Event.SendRequest i "env" false (encoding.String kv.1 ++ encoding.String kv.2))) ∧
      (¬ (r.Typ = "shell" ∨ r.Typ = "exec") → envs = []) ∧
      ∀ k v, (k, v) ∈ E →
        (stringBytes k).length < 2 ^ 32 → (stringBytes v).length < 2 ^ 32 →
        decodeEnv (encoding.String k ++ encoding.String v) =
          some (stringBytes k, stringBytes v) := by
  have hb := forwardChannelRequestsBody_turnLocal ctx target
  simp only [forwardChannelRequests] at hrecv ⊢
  rw [mem_close_iff _ _ (by simp)] at hrecv
  rw [turnOf_close, turnOf_forRange hb requests i r hi hrecv]
  obtain ⟨tail, ht, htail⟩ := forwardChannelRequestsBody_envs ctx target i r
  refine ⟨_, tail, by rw [ht], htail, ?_, ?_, ?_⟩
  · intro h
    rw [if_pos h]
    exact hE.map _
  · intro h
    rw [if_neg h]
  · intro k v _ hk hv
    exact decodeEnv_encoding k v hk hv

/-- C9. Channel request relay forwards the outcome but not a payload, and
releases its destination: for a request taken by `forwardChannelRequests` whose
`SendRequest` on the destination returns `(ok, nil)`, the replies to it are the
single `Reply(ok, empty payload)` when its `WantReply` is true and none
otherwise; when the send, or the reply, of a taken request fails with `e`, the
relay returns `e` and makes no call for any later request; and in every run
`Close` is called on the destination exactly once. -/
theorem forwardChannelRequests_outcome_and_release (ctx : Context) (target : Channel)
    (requests : List Request) :
    (∀ i (r : Request), requests[i]? = some r →
      Event.Receive i ∈ (forwardChannelRequests ctx target requests).1 →
      (target.SendRequest i r.Typ r.WantReply r.Payload).2 = none →
      repliesTo i (forwardChannelRequests ctx target requests).1 =
        if r.WantReply = true then
          [Event.Reply i (target.SendRequest i r.Typ r.WantReply r.Payload).1 []]
        else []) ∧
    (∀ i (r : Request) (e : GoError), requests[i]? = some r →
      Event.Receive i ∈ (forwardChannelRequests ctx target requests).1 →
      ((target.SendRequest i r.Typ r.WantReply r.Payload).2 = some e ∨
        ((target.SendRequest i r.Typ r.WantReply r.Payload).2 = none ∧ r.WantReply = true ∧
          r.Reply (target.SendRequest i r.Typ r.WantReply r.Payload).1 [] = some e)) →
      (forwardChannelRequests ctx target requests).2 = some e ∧
        ∀ j, i < j → turnOf j (forwardChannelRequests ctx target requests).1 = []) ∧
    (forwardChannelRequests ctx target requests).1.count Event.Close = 1 := by
  have hb := forwardChannelRequestsBody_turnLocal ctx target
  simp only [forwardChannelRequests]
  refine ⟨?_, ?_, count_close hb requests 0⟩
  · intro i r hi hrecv hs
    rw [mem_close_iff _ _ (by simp)] at hrecv
    rw [repliesTo, turnOf_close, turnOf_forRange hb requests i r hi hrecv, List.filter_cons]
    simp only [Event.isReply, Bool.false_eq_true, if_false]
    exact forwardChannelRequestsBody_replies ctx target i r hs
  · intro i r e hi hrecv hfail
    rw [mem_close_iff _ _ (by simp)] at hrecv
    have hret : (forwardChannelRequestsBody ctx target i r).2 = some e := by
      rw [forwardChannelRequestsBody_ret]
      rcases hfail with h | ⟨h, hw, hr⟩
      · rw [h]
      · rw [h]
        show (if r.WantReply = true then _ else none) = some e
        rw [if_pos hw]
        exact hr
    obtain ⟨h1, h2⟩ := forRange_stops hb requests i r hi hrecv e hret
    refine ⟨h1, ?_⟩
    intro j hj
    rw [turnOf_close]
    exact h2 j hj

/-! ## Channel negotiation dispatcher -/

theorem forwardChannelsBody_cancelled (ctx : Context) (target : Client) (i : Nat)
    (n : NewChannel) (c : GoError) (hc : ctx.Err i = some c) :
    forwardChannelsBody ctx target i n =
      ([Event.Reject i Prohibited c.text],
        match n.Reject Prohibited c.text with
        | some err => some err
        | none => some c) := by
  unfold forwardChannelsBody
  rw [hc]
  simp only
  split <;> rfl

theorem asOpenChannelError_some (e : GoError) (X : Nat) (M : String)
    (h : e.openChannelError = some (X, M)) :
    asOpenChannelError (some e) = some (e, X, M) := by
  simp [asOpenChannelError, h]

theorem asOpenChannelError_nil : asOpenChannelError none = none := rfl

theorem forwardChannelsBody_refused (ctx : Context) (target : Client) (i : Nat)
    (n : NewChannel) (e : GoError) (X : Nat) (M : String) (hc : ctx.Err i = none)
    (ho : (target.OpenChannel i n.ChannelType n.ExtraData).2.2 = some e)
    (he : e.openChannelError = some (X, M)) :
    forwardChannelsBody ctx target i n =
      ([Event.OpenChannel i n.ChannelType n.ExtraData, Event.Reject i X M],
        match n.Reject X M with
        | some err => some err
        | none => some e) := by
  unfold forwardChannelsBody
  rcases hs : target.OpenChannel i n.ChannelType n.ExtraData with ⟨tc, tr, err⟩
  rw [hs] at ho
  simp only at ho
  subst ho
  rw [hc]
  simp only [asOpenChannelError_some e X M he]
  split <;> simp

theorem forwardChannelsBody_acceptErr (ctx : Context) (target : Client) (i : Nat)
    (n : NewChannel) (e : GoError) (hc : ctx.Err i = none)
    (ho : asOpenChannelError (target.OpenChannel i n.ChannelType n.ExtraData).2.2 = none)
    (ha : n.Accept.2.2 = some e) :
    forwardChannelsBody ctx target i n =
      ([Event.OpenChannel i n.ChannelType n.ExtraData, Event.Accept i,
        Event.Error i "Could not accept channel" e], none) := by
  unfold forwardChannelsBody
  rcases hs : target.OpenChannel i n.ChannelType n.ExtraData with ⟨tc, tr, err⟩
  rcases hacc : n.Accept with ⟨sc, sr, aerr⟩
  rw [hs] at ho
  rw [hacc] at ha
  simp only at ho ha
  subst ha
  rw [hc]
  simp [ho]

theorem forwardChannelsBody_accepted (ctx : Context) (target : Client) (i : Nat)
    (n : NewChannel) (hc : ctx.Err i = none)
    (ho : asOpenChannelError (target.OpenChannel i n.ChannelType n.ExtraData).2.2 = none)
    (ha : n.Accept.2.2 = none) :
    forwardChannelsBody ctx target i n =
      ([Event.OpenChannel i n.ChannelType n.ExtraData, Event.Accept i,
        Event.GoHandle i ⟨n.Accept.1, n.Accept.2.1,
          (target.OpenChannel i n.ChannelType n.ExtraData).1,
          (target.OpenChannel i n.ChannelType n.ExtraData).2.1⟩ n.ChannelType], none) := by
  unfold forwardChannelsBody
  rcases hs : target.OpenChannel i n.ChannelType n.ExtraData with ⟨tc, tr, err⟩
  rcases hacc : n.Accept with ⟨sc, sr, aerr⟩
  rw [hs] at ho
  rw [hacc] at ha
  simp only at ho ha
  subst ha
  rw [hc]
  simp [ho]

theorem forwardChannelsBody_turnLocal (ctx : Context) (target : Client) :
    TurnLocal (forwardChannelsBody ctx target) := by
  intro i n ev hev
  cases hc : ctx.Err i with
  | some c =>
    rw [forwardChannelsBody_cancelled ctx target i n c hc] at hev
    simp only [List.mem_singleton] at hev
    subst hev
    simp [Event.turn?]
  | none =>
    cases ho : asOpenChannelError (target.OpenChannel i n.ChannelType n.ExtraData).2.2 with
    | some t =>
      obtain ⟨e, X, M⟩ := t
      cases herr : (target.OpenChannel i n.ChannelType n.ExtraData).2.2 with
      | none => rw [herr] at ho; simp [asOpenChannelError] at ho
      | some e' =>
        rw [herr] at ho
        cases hoe : e'.openChannelError with
        | none => simp [asOpenChannelError, hoe] at ho
        | some XM =>
          obtain ⟨X', M'⟩ := XM
          rw [forwardChannelsBody_refused ctx target i n e' X' M' hc herr hoe] at hev
          simp only [List.mem_cons, List.mem_singleton, List.not_mem_nil, or_false] at hev
          rcases hev with rfl | rfl <;> simp [Event.turn?]
    | none =>
      cases ha : n.Accept.2.2 with
      | some e =>
        rw [forwardChannelsBody_acceptErr ctx target i n e hc ho ha] at hev
        simp only [List.mem_cons, List.mem_singleton, List.not_mem_nil, or_false] at hev
        rcases hev with rfl | rfl | rfl <;> simp [Event.turn?]
      | none =>
        rw [forwardChannelsBody_accepted ctx target i n hc ho ha] at hev
        simp only [List.mem_cons, List.mem_singleton, List.not_mem_nil, or_false] at hev
        rcases hev with rfl | rfl | rfl <;> simp [Event.turn?]

theorem forRange_congr {α : Type} (body body' : Nat → α → List Event × Option GoError) :
    ∀ (l : List α) (i0 : Nat),
      (∀ j x, j < i0 + l.length → body j x = body' j x) →
      forRange body i0 l = forRange body' i0 l := by
  intro l
  induction l with
  | nil => intro i0 _; simp [forRange]
  | cons a l ih =>
    intro i0 h
    have h0 := h i0 a (by simp)
    have ih' := ih (i0 + 1) (fun j x hj => h j x (by simp only [List.length_cons]; omega))
    simp only [forRange, h0, ih']

theorem forRange_shift {α : Type} (body body' : Nat → α → List Event × Option GoError)
    (g : Event → Event) (i : Nat) (hg : ∀ j, i ≤ j → g (Event.Receive j) = Event.Receive (j + 1))
    (h : ∀ j x, i ≤ j → body (j + 1) x = ((body' j x).1.map g, (body' j x).2)) :
    ∀ (l : List α) (i0 : Nat), i ≤ i0 →
      forRange body (i0 + 1) l = ((forRange body' i0 l).1.map g, (forRange body' i0 l).2) := by
  intro l
  induction l with
  | nil => intro i0 _; simp [forRange]
  | cons a l ih =>
    intro i0 hi
    have h0 := h i0 a hi
    have ih' := ih (i0 + 1) (by omega)
    cases hr : (body' i0 a).2 with
    | some e =>
      rw [forRange_cons_ret body (i0 + 1) a l e (by rw [h0]; exact hr),
        forRange_cons_ret body' i0 a l e hr, h0]
      simp [hg i0 hi]
    | none =>
      rw [forRange_cons_next body (i0 + 1) a l (by rw [h0]; exact hr),
        forRange_cons_next body' i0 a l hr, h0, ih']
      simp [hg i0 hi]

theorem mapTurn_skipTurn_of_lt (i : Nat) (ev : Event) (h : ∃ j, ev.turn? = some j ∧ j < i) :
    ev.mapTurn (skipTurn i) = ev := by
  obtain ⟨j, hj, hlt⟩ := h
  cases ev <;> simp only [Event.turn?, Option.some.injEq] at hj <;>
    first
    | (subst hj; simp [Event.mapTurn, skipTurn, hlt])
    | exact Option.noConfusion hj

/-- The body of `forwardChannels` depends on the turn only through the answers
of its collaborators and the stamp of its calls. -/
theorem forwardChannelsBody_without (ctx : Context) (target : Client) (i j : Nat)
    (n : NewChannel) :
    forwardChannelsBody ctx target (skipTurn i j) n =
      ((forwardChannelsBody (ctx.without i) (target.without i) j n).1.map
          (Event.mapTurn (skipTurn i)),
        (forwardChannelsBody (ctx.without i) (target.without i) j n).2) := by
  have hE : ∀ r, ctx.Err (skipTurn i j) = r → (ctx.without i).Err j = r := fun _ h => h
  have hO : ∀ r, asOpenChannelError
      (target.OpenChannel (skipTurn i j) n.ChannelType n.ExtraData).2.2 = r →
      asOpenChannelError ((target.without i).OpenChannel j n.ChannelType n.ExtraData).2.2 = r :=
    fun _ h => h
  have hacc : ctx.Err (skipTurn i j) = none →
      asOpenChannelError (target.OpenChannel (skipTurn i j) n.ChannelType n.ExtraData).2.2 = none →
      forwardChannelsBody ctx target (skipTurn i j) n =
        ((forwardChannelsBody (ctx.without i) (target.without i) j n).1.map
            (Event.mapTurn (skipTurn i)),
          (forwardChannelsBody (ctx.without i) (target.without i) j n).2) := by
    intro hc ho
    cases ha : n.Accept.2.2 with
    | some e =>
      rw [forwardChannelsBody_acceptErr ctx target _ n e hc ho ha,
        forwardChannelsBody_acceptErr (ctx.without i) (target.without i) j n e (hE _ hc)
          (hO _ ho) ha]
      simp [Event.mapTurn]
    | none =>
      rw [forwardChannelsBody_accepted ctx target _ n hc ho ha,
        forwardChannelsBody_accepted (ctx.without i) (target.without i) j n (hE _ hc)
          (hO _ ho) ha]
      simp [Event.mapTurn, Client.without]
  cases hc : ctx.Err (skipTurn i j) with
  | some c =>
    rw [forwardChannelsBody_cancelled ctx target _ n c hc,
      forwardChannelsBody_cancelled (ctx.without i) (target.without i) j n c (hE _ hc)]
    cases n.Reject Prohibited c.text <;> simp [Event.mapTurn]
  | none =>
    cases herr : (target.OpenChannel (skipTurn i j) n.ChannelType n.ExtraData).2.2 with
    | none => exact hacc hc (by rw [herr]; rfl)
    | some e =>
      cases hoe : e.openChannelError with
      | none => exact hacc hc (by rw [herr]; simp [asOpenChannelError, hoe])
      | some XM =>
        obtain ⟨X, M⟩ := XM
        rw [forwardChannelsBody_refused ctx target _ n e X M hc herr hoe,
          forwardChannelsBody_refused (ctx.without i) (target.without i) j n e X M (hE _ hc)
            herr hoe]
        cases n.Reject X M <;> simp [Event.mapTurn]

/-- Leaving out an item whose body does not return: the loop returns the same
error, and its calls are, up to the numbering of the turns, the calls of the
full run outside the turn left out. -/
theorem forwardChannels_without (ctx : Context) (target : Client)
    (channels : List NewChannel) (i : Nat) (n : NewChannel) (hi : channels[i]? = some n)
    (hrecv : Event.Receive i ∈ (forwardChannels ctx target channels).1)
    (hnext : (forwardChannelsBody ctx target i n).2 = none) :
    (forwardChannels ctx target channels).2 =
        (forwardChannels (ctx.without i) (target.without i) (channels.eraseIdx i)).2 ∧
      (forwardChannels ctx target channels).1.filter (fun ev => decide (ev.turn? ≠ some i)) =
        (forwardChannels (ctx.without i) (target.without i) (channels.eraseIdx i)).1.map
          (Event.mapTurn (skipTurn i)) := by
  have hb := forwardChannelsBody_turnLocal ctx target
  simp only [forwardChannels, forwardChannelsFrom] at hrecv ⊢
  obtain ⟨hl, hlen⟩ := split_of_getElem? channels i n hi
  have hr2 : Event.Receive (0 + (channels.take i).length) ∈
      (forRange (forwardChannelsBody ctx target) 0
        (channels.take i ++ n :: channels.drop (i + 1))).1 := by
    rw [← hl, hlen, Nat.zero_add]; exact hrecv
  have hpre := forRange_reached hb _ _ _ hr2
  have happ := forRange_append (forwardChannelsBody ctx target) (channels.take i)
    (n :: channels.drop (i + 1)) 0 hpre
  rw [← hl, hlen, Nat.zero_add, forRange_cons_next _ i n _ hnext] at happ
  -- the run on the sequence without item `i`
  have hcongr : forRange (forwardChannelsBody (ctx.without i) (target.without i)) 0
      (channels.take i) = forRange (forwardChannelsBody ctx target) 0 (channels.take i) := by
    apply forRange_congr
    intro j x hj
    rw [hlen, Nat.zero_add] at hj
    have := forwardChannelsBody_without ctx target i j x
    simp only [skipTurn, if_pos hj] at this
    rw [this]
    apply Prod.ext
    · simp only
      have hloc := forwardChannelsBody_turnLocal (ctx.without i) (target.without i)
      symm
      calc List.map (Event.mapTurn (skipTurn i))
            (forwardChannelsBody (ctx.without i) (target.without i) j x).1
          = List.map id (forwardChannelsBody (ctx.without i) (target.without i) j x).1 := by
            apply List.map_congr_left
            intro ev hev
            exact mapTurn_skipTurn_of_lt i ev ⟨j, (hloc j x ev hev).1, hj⟩
        _ = _ := by simp
    · rfl
  have hshift := forRange_shift (forwardChannelsBody ctx target)
    (forwardChannelsBody (ctx.without i) (target.without i)) (Event.mapTurn (skipTurn i)) i
    (by intro j hj; simp [Event.mapTurn, skipTurn]; omega)
    (by
      intro j x hj
      have := forwardChannelsBody_without ctx target i j x
      simp only [skipTurn, if_neg (show ¬ j < i by omega)] at this
      exact this)
    (channels.drop (i + 1)) i (le_refl _)
  have hpre' : (forRange (forwardChannelsBody (ctx.without i) (target.without i)) 0
      (channels.take i)).2 = none := by rw [hcongr]; exact hpre
  have happ' := forRange_append (forwardChannelsBody (ctx.without i) (target.without i))
    (channels.take i) (channels.drop (i + 1)) 0 hpre'
  rw [hlen, Nat.zero_add, hcongr] at happ'
  rw [List.eraseIdx_eq_take_drop_succ, happ', happ, hshift]
  refine ⟨rfl, ?_⟩
  have hbefore : ∀ ev ∈ (forRange (forwardChannelsBody ctx target) 0 (channels.take i)).1,
      ∃ j, ev.turn? = some j ∧ j < i := by
    intro ev hev
    obtain ⟨j, hj, _, h2⟩ := forRange_turn_bounds hb _ _ ev hev
    exact ⟨j, hj, by omega⟩
  have e1 : List.filter (fun ev => decide (ev.turn? ≠ some i))
      (forRange (forwardChannelsBody ctx target) 0 (channels.take i)).1 =
      (forRange (forwardChannelsBody ctx target) 0 (channels.take i)).1 := by
    rw [List.filter_eq_self]
    intro ev hev
    obtain ⟨j, hj, hlt⟩ := hbefore ev hev
    simp only [hj, ne_eq, Option.some.injEq, decide_eq_true_eq]
    omega
  have e2 : List.filter (fun ev => decide (ev.turn? ≠ some i))
      (forwardChannelsBody ctx target i n).1 = [] := by
    rw [List.filter_eq_nil_iff]
    intro ev hev
    simp [(hb i n ev hev).1]
  have e3 : List.filter (fun ev => decide (ev.turn? ≠ some i))
      (List.map (Event.mapTurn (skipTurn i))
        (forRange (forwardChannelsBody (ctx.without i) (target.without i)) i
          (channels.drop (i + 1))).1) =
      List.map (Event.mapTurn (skipTurn i))
        (forRange (forwardChannelsBody (ctx.without i) (target.without i)) i
          (channels.drop (i + 1))).1 := by
    rw [List.filter_eq_self]
    intro ev hev
    have hm : ev ∈ (forRange (forwardChannelsBody ctx target) (i + 1)
        (channels.drop (i + 1))).1 := by rw [hshift]; exact hev
    obtain ⟨j, hj, h1, _⟩ := forRange_turn_bounds hb _ _ ev hm
    simp only [hj, ne_eq, Option.some.injEq, decide_eq_true_eq]
    omega
  have e4 : List.map (Event.mapTurn (skipTurn i))
      (forRange (forwardChannelsBody ctx target) 0 (channels.take i)).1 =
      (forRange (forwardChannelsBody ctx target) 0 (channels.take i)).1 := by
    calc _ = List.map id (forRange (forwardChannelsBody ctx target) 0 (channels.take i)).1 := by
            apply List.map_congr_left
            intro ev hev
            exact mapTurn_skipTurn_of_lt i ev (hbefore ev hev)
      _ = _ := by simp
  have e0 : List.filter (fun ev => decide (ev.turn? ≠ some i)) [Event.Receive i] = [] := by
    simp [Event.turn?]
  show List.filter (fun ev => decide (ev.turn? ≠ some i))
      ((forRange (forwardChannelsBody ctx target) 0 (channels.take i)).1 ++
        ([Event.Receive i] ++ ((forwardChannelsBody ctx target i n).1 ++
          List.map (Event.mapTurn (skipTurn i))
            (forRange (forwardChannelsBody (ctx.without i) (target.without i)) i
              (channels.drop (i + 1))).1))) =
    List.map (Event.mapTurn (skipTurn i))
      ((forRange (forwardChannelsBody ctx target) 0 (channels.take i)).1 ++
        (forRange (forwardChannelsBody (ctx.without i) (target.without i)) i
          (channels.drop (i + 1))).1)
  rw [List.filter_append, List.filter_append, List.filter_append, e0, e1, e2, e3,
    List.map_append, e4]
  simp

/-- C4 (the code at the failing input). The target's `OpenChannel` fails with an
error that is not an `*ssh.OpenChannelError`; `forwardChannels` does not reject
the notification: it calls `Accept` on it, starts a Channel Pump on the
returned handles and returns `nil`. -/
theorem forwardChannels_accepts_after_plain_open_error :
    (deadTarget.OpenChannel 0 sessionOpen.ChannelType sessionOpen.ExtraData).2.2 =
        some (errorsNew "EOF") ∧
      forwardChannels liveContext deadTarget [sessionOpen] =
        ([Event.Receive 0, Event.OpenChannel 0 "session" [], Event.Accept 0,
          Event.GoHandle 0 ⟨1, 2, 0, 0⟩ "session"], none) := by
  decide

/-- C5 (as stated) fails: the target refuses the channel with a structured
`OpenChannelError`, `Reject` on the source notification fails, and
`forwardChannels` returns the error of `Reject`, not the `OpenChannelError`. -/
theorem forwardChannels_refusal_counterexample :
    liveContext.Err 0 = none ∧
      (refusingTarget.OpenChannel 0 brokenOpen.ChannelType brokenOpen.ExtraData).2.2 =
        some refusal ∧
      refusal.openChannelError = some (2, "no route") ∧
      (forwardChannels liveContext refusingTarget [brokenOpen]).2 ≠ some refusal := by
  decide

/-- C5 (amended). Structured refusal is mirrored exactly and is fatal: when the
lifetime is not cancelled and the target's `OpenChannel` for a notification
taken from the sequence fails with an `OpenChannelError` `(X, M)`, the calls of
that turn are the delivery, the `OpenChannel` and `Reject(X, M)` (so `Accept` is
not called and no pump is started), no later notification is processed, and
`forwardChannels` returns that `OpenChannelError` when `Reject` succeeds and the
error of `Reject` when it fails. -/
theorem forwardChannels_refusal_mirrored (ctx : Context) (target : Client)
    (channels : List NewChannel) (i : Nat) (n : NewChannel) (e : GoError) (X : Nat)
    (M : String) (hi : channels[i]? = some n)
    (hrecv : Event.Receive i ∈ (forwardChannels ctx target channels).1)
    (hc : ctx.Err i = none)
    (ho : (target.OpenChannel i n.ChannelType n.ExtraData).2.2 = some e)
    (he : e.openChannelError = some (X, M)) :
    turnOf i (forwardChannels ctx target channels).1 =
        [Event.Receive i, Event.OpenChannel i n.ChannelType n.ExtraData, Event.Reject i X M] ∧
      (∀ j, i < j → turnOf j (forwardChannels ctx target channels).1 = []) ∧
      (n.Reject X M = none → (forwardChannels ctx target channels).2 = some e) ∧
      (∀ e', n.Reject X M = some e' → (forwardChannels ctx target channels).2 = some e') := by
  have hb := forwardChannelsBody_turnLocal ctx target
  have hbody := forwardChannelsBody_refused ctx target i n e X M hc ho he
  simp only [forwardChannels, forwardChannelsFrom] at hrecv ⊢
  have h3 := turnOf_forRange hb channels i n hi hrecv
  rw [hbody] at h3
  cases hrej : n.Reject X M with
  | none =>
    rw [hrej] at hbody
    obtain ⟨h1, h2⟩ := forRange_stops hb channels i n hi hrecv e (by rw [hbody])
    exact ⟨h3, h2, fun _ => h1, fun e' h => Option.noConfusion h⟩
  | some e' =>
    rw [hrej] at hbody
    obtain ⟨h1, h2⟩ := forRange_stops hb channels i n hi hrecv e' (by rw [hbody])
    refine ⟨h3, h2, fun h => Option.noConfusion h, ?_⟩
    intro e'' h
    rw [h1, h]

/-- C6 (as stated) fails: the lifetime is cancelled, `Reject` on the
notification fails, and `forwardChannels` returns the error of `Reject`, not
the cancellation error. -/
theorem forwardChannels_cancel_counterexample :
    cancelledContext.Err 0 = some (errorsNew "context canceled") ∧
      (forwardChannels cancelledContext refusingTarget [brokenOpen]).2 ≠
        some (errorsNew "context canceled") := by
  decide

/-- C6 (amended). Cancellation stops channel intake: for a notification taken
from the sequence while the lifetime is cancelled with error `c`, the calls of
that turn are the delivery and `Reject(ssh.Prohibited, text of c)` (no
`OpenChannel`, no `Accept`), no later notification is processed, and
`forwardChannels` returns `c` when `Reject` succeeds and the error of `Reject`
when it fails. -/
theorem forwardChannels_cancelled (ctx : Context) (target : Client)
    (channels : List NewChannel) (i : Nat) (n : NewChannel) (c : GoError)
    (hi : channels[i]? = some n)
    (hrecv : Event.Receive i ∈ (forwardChannels ctx target channels).1)
    (hc : ctx.Err i = some c) :
    turnOf i (forwardChannels ctx target channels).1 =
        [Event.Receive i, Event.Reject i Prohibited c.text] ∧
      (∀ j, i < j → turnOf j (forwardChannels ctx target channels).1 = []) ∧
      (n.Reject Prohibited c.text = none → (forwardChannels ctx target channels).2 = some c) ∧
      (∀ e', n.Reject Prohibited c.text = some e' →
        (forwardChannels ctx target channels).2 = some e') := by
  have hb := forwardChannelsBody_turnLocal ctx target
  have hbody := forwardChannelsBody_cancelled ctx target i n c hc
  simp only [forwardChannels, forwardChannelsFrom] at hrecv ⊢
  have h3 := turnOf_forRange hb channels i n hi hrecv
  rw [hbody] at h3
  cases hrej : n.Reject Prohibited c.text with
  | none =>
    rw [hrej] at hbody
    obtain ⟨h1, h2⟩ := forRange_stops hb channels i n hi hrecv c (by rw [hbody])
    exact ⟨h3, h2, fun _ => h1, fun e' h => Option.noConfusion h⟩
  | some e' =>
    rw [hrej] at hbody
    obtain ⟨h1, h2⟩ := forRange_stops hb channels i n hi hrecv e' (by rw [hbody])
    refine ⟨h3, h2, fun h => Option.noConfusion h, ?_⟩
    intro e'' h
    rw [h1, h]

/-- C8. Fail-fast preconditions: `Requests` returns `errTargetMissing` when the
target is nil and otherwise `errRequestsChanMissing` when the request sequence
is nil; `Channels` returns `errTargetMissing` when the target is nil and
otherwise `errChannelsChanMissing` when the notification sequence is nil; in
each of these cases no call at all is made (the trace is empty: nothing is
received, sent, opened or closed). -/
theorem preconditions_fail_fast (ctx : Context) (target : Client)
    (requests : Option (List Request)) (channels : Option (List NewChannel)) :
    Requests none requests = ([], some errTargetMissing) ∧
      Requests (some target) none = ([], some errRequestsChanMissing) ∧
      Channels ctx none channels = ([], some errTargetMissing) ∧
      Channels ctx (some target) none = ([], some errChannelsChanMissing) ∧
      errTargetMissing.text = "target SSH Client missing" ∧
      errRequestsChanMissing.text = "requests chan missing" ∧
      errChannelsChanMissing.text = "channels chan missing" :=
  ⟨rfl, rfl, rfl, rfl, rfl, rfl, rfl⟩

/-- C10. Source accept failure is recovered locally.  When the lifetime is not
cancelled, the target's `OpenChannel` succeeds for a notification `n` taken
from the sequence and its `Accept` fails, the calls of that turn are the
delivery, the `OpenChannel`, the `Accept` and the error log (no Channel Pump is
started); what follows, calls and returned error, is what the loop does on the
notifications after `n`; and the run is that on the sequence without `n` (the
collaborators answering for every other notification as before): the same
returned error and, outside the turn of `n`, the same calls.  When for every
notification the lifetime is not cancelled and `OpenChannel` succeeds (whether
`Accept` fails or not), every notification is taken and `forwardChannels`
returns `nil`. -/
theorem forwardChannels_accept_failure_recovered (ctx : Context) (target : Client)
    (channels : List NewChannel) :
    (∀ i (n : NewChannel) (e : GoError), channels[i]? = some n →
      Event.Receive i ∈ (forwardChannels ctx target channels).1 →
      ctx.Err i = none →
      (target.OpenChannel i n.ChannelType n.ExtraData).2.2 = none →
      n.Accept.2.2 = some e →
      turnOf i (forwardChannels ctx target channels).1 =
          [Event.Receive i, Event.OpenChannel i n.ChannelType n.ExtraData, Event.Accept i,
            Event.Error i "Could not accept channel" e] ∧
        (∃ before, (∀ ev ∈ before, ∃ j, ev.turn? = some j ∧ j < i) ∧
          forwardChannels ctx target channels =
            (before ++ [Event.Receive i, Event.OpenChannel i n.ChannelType n.ExtraData,
                Event.Accept i, Event.Error i "Could not accept channel" e] ++
              (forwardChannelsFrom ctx target (i + 1) (channels.drop (i + 1))).1,
             (forwardChannelsFrom ctx target (i + 1) (channels.drop (i + 1))).2)) ∧
        (forwardChannels ctx target channels).2 =
          (forwardChannels (ctx.without i) (target.without i) (channels.eraseIdx i)).2 ∧
        (forwardChannels ctx target channels).1.filter
            (fun ev => decide (ev.turn? ≠ some i)) =
          (forwardChannels (ctx.without i) (target.without i) (channels.eraseIdx i)).1.map
            (Event.mapTurn (skipTurn i))) ∧
    ((∀ i (n : NewChannel), channels[i]? = some n →
        ctx.Err i = none ∧ (target.OpenChannel i n.ChannelType n.ExtraData).2.2 = none) →
      (forwardChannels ctx target channels).2 = none ∧
        ∀ i, i < channels.length → Event.Receive i ∈ (forwardChannels ctx target channels).1) := by
  have hb := forwardChannelsBody_turnLocal ctx target
  constructor
  · intro i n e hi hrecv hc ho ha
    have hbody := forwardChannelsBody_acceptErr ctx target i n e hc
      (by rw [ho]; rfl) ha
    obtain ⟨hw1, hw2⟩ := forwardChannels_without ctx target channels i n hi hrecv
      (by rw [hbody])
    refine ⟨?_, ?_, hw1, hw2⟩
    all_goals simp only [forwardChannels, forwardChannelsFrom] at hrecv ⊢
    · have h3 := turnOf_forRange hb channels i n hi hrecv
      rw [hbody] at h3
      exact h3
    obtain ⟨before, after, ht, hbef, -, -, hnext⟩ := forRange_at hb channels i n hi hrecv
    have hn := hnext (by rw [hbody])
    rw [hbody] at ht
    refine ⟨before, hbef, ?_⟩
    rw [← hn]
    apply Prod.ext
    · simp only [ht]
    · rfl
  · simp only [forwardChannels, forwardChannelsFrom]
    intro hall
    have hnext : ∀ j (y : NewChannel), channels[j]? = some y →
        (forwardChannelsBody ctx target j y).2 = none := by
      intro j y hy
      obtain ⟨hc, ho⟩ := hall j y hy
      cases ha : y.Accept.2.2 with
      | some e => rw [forwardChannelsBody_acceptErr ctx target j y e hc (by rw [ho]; rfl) ha]
      | none => rw [forwardChannelsBody_accepted ctx target j y hc (by rw [ho]; rfl) ha]
    refine ⟨forRange_all_next _ channels 0 (fun j y hy => by rw [Nat.zero_add]; exact hnext j y hy), ?_⟩
    intro i hi
    have hx : channels[i]? = some channels[i] := List.getElem?_eq_getElem hi
    exact forRange_reach _ channels i _ hx (fun j y _ hy => hnext j y hy)

/-! ## The theorems at concrete inputs -/

theorem forwardClientRequests_fifo_witness :
    sendRequests (forwardClientRequests echoTarget threeRequests).1 =
        [("keepalive@openssh.com", true, []), ("tcpip-forward", false, [1, 2]),
          ("cancel-tcpip-forward", true, [3])] ∧
      replies (forwardClientRequests echoTarget threeRequests).1 =
        [(0, true, [0]), (2, true, [3, 2])] ∧
      (forwardClientRequests echoTarget threeRequests).2 = none :=
  forwardClientRequests_fifo echoTarget threeRequests (fun _ _ _ => rfl)
    (by
      intro i r h _
      rcases i with _ | _ | _ | i
      · simp only [threeRequests, List.getElem?_cons_zero, Option.some.injEq] at h
        subst h; rfl
      · simp only [threeRequests, List.getElem?_cons_succ, List.getElem?_cons_zero,
          Option.some.injEq] at h
        subst h; rfl
      · simp only [threeRequests, List.getElem?_cons_succ, List.getElem?_cons_zero,
          Option.some.injEq] at h
        subst h; rfl
      · simp [threeRequests] at h)

theorem forwardClientRequests_abort_on_send_failure_witness :
    (forwardClientRequests flakyTarget threeRequests).2 = some (errorsNew "EOF") ∧
      turnOf 1 (forwardClientRequests flakyTarget threeRequests).1 =
        [Event.Receive 1, Event.SendRequest 1 "tcpip-forward" false [1, 2]] ∧
      (∀ j, 1 < j → turnOf j (forwardClientRequests flakyTarget threeRequests).1 = []) ∧
      (forwardClientRequests flakyTarget threeRequests).1.count Event.Close = 1 :=
  forwardClientRequests_abort_on_send_failure flakyTarget threeRequests 1 tcpipForward
    (errorsNew "EOF") rfl
    (by
      intro j r hj _
      have h0 : j = 0 := by omega
      subst h0; rfl)
    (by
      intro j r hj h _
      have h0 : j = 0 := by omega
      subst h0
      simp only [threeRequests, List.getElem?_cons_zero, Option.some.injEq] at h
      subst h; rfl)
    rfl

theorem forwardClientRequests_reply_iff_witness :
    repliesTo 2 (forwardClientRequests echoTarget threeRequests).1 =
        [Event.Reply 2 true [3, 2]] ∧
      repliesTo 1 (forwardClientRequests echoTarget threeRequests).1 = [] :=
  ⟨forwardClientRequests_reply_iff echoTarget threeRequests 2 cancelForward rfl (by decide),
    forwardClientRequests_reply_iff echoTarget threeRequests 1 tcpipForward rfl (by decide)⟩

theorem forwardChannels_refusal_mirrored_witness :
    turnOf 0 (forwardChannels liveContext refusingTarget [sessionOpen, sessionOpen]).1 =
        [Event.Receive 0, Event.OpenChannel 0 "session" [], Event.Reject 0 2 "no route"] ∧
      (∀ j, 0 < j →
        turnOf j (forwardChannels liveContext refusingTarget [sessionOpen, sessionOpen]).1 = []) ∧
      (sessionOpen.Reject 2 "no route" = none →
        (forwardChannels liveContext refusingTarget [sessionOpen, sessionOpen]).2 =
          some refusal) ∧
      (∀ e', sessionOpen.Reject 2 "no route" = some e' →
        (forwardChannels liveContext refusingTarget [sessionOpen, sessionOpen]).2 = some e') :=
  forwardChannels_refusal_mirrored liveContext refusingTarget [sessionOpen, sessionOpen] 0
    sessionOpen refusal 2 "no route" rfl (by decide) rfl rfl rfl

theorem forwardChannels_cancelled_witness :
    turnOf 0 (forwardChannels cancelledContext echoTarget [sessionOpen, sessionOpen]).1 =
        [Event.Receive 0, Event.Reject 0 1 "context canceled"] ∧
      (∀ j, 0 < j →
        turnOf j (forwardChannels cancelledContext echoTarget [sessionOpen, sessionOpen]).1 = []) ∧
      (sessionOpen.Reject Prohibited "context canceled" = none →
        (forwardChannels cancelledContext echoTarget [sessionOpen, sessionOpen]).2 =
          some (errorsNew "context canceled")) ∧
      (∀ e', sessionOpen.Reject Prohibited "context canceled" = some e' →
        (forwardChannels cancelledContext echoTarget [sessionOpen, sessionOpen]).2 = some e') :=
  forwardChannels_cancelled cancelledContext echoTarget [sessionOpen, sessionOpen] 0
    sessionOpen (errorsNew "context canceled") rfl (by decide) rfl

/-- The witness of the specification: first request `"exec"`, environment
`{"LANG": "C"}`; the `"env"` request (no reply wanted, payload the two SSH
strings `LANG` and `C`) comes strictly before the `"exec"` request. -/
theorem forwardChannelRequests_env_before_shell_exec_witness :
    (forwardChannelRequests langContext okChannel [execRequest]).1 =
        [Event.Receive 0,
          Event.SendRequest 0 "env" false [0, 0, 0, 4, 76, 65, 78, 71, 0, 0, 0, 1, 67],
          Event.SendRequest 0 "exec" true [0, 0, 0, 2, 108, 115],
          Event.Reply 0 true [], Event.Debug 0 "Forward channel request" "exec" true,
          Event.Close] ∧
      decodeEnv [0, 0, 0, 4, 76, 65, 78, 71, 0, 0, 0, 1, 67] =
        some (stringBytes "LANG", stringBytes "C") ∧
      ∃ envs tail,
        turnOf 0 (forwardChannelRequests langContext okChannel [execRequest]).1 =
          Event.Receive 0 :: (envs ++
            Event.SendRequest 0 execRequest.Typ execRequest.WantReply execRequest.Payload ::
              tail) ∧
        (∀ ev ∈ tail, ∀ n w p, ev ≠ Event.SendRequest 0 n w p) ∧
        (execRequest.Typ = "shell" ∨ execRequest.Typ = "exec" →
          envs.Perm ([("LANG", "C")].map fun kv =>
            Event.SendRequest 0 "env" false (encoding.String kv.1 ++ encoding.String kv.2))) ∧
        (¬ (execRequest.Typ = "shell" ∨ execRequest.Typ = "exec") → envs = []) ∧
        ∀ k v, (k, v) ∈ [("LANG", "C")] →
          (stringBytes k).length < 2 ^ 32 → (stringBytes v).length < 2 ^ 32 →
          decodeEnv (encoding.String k ++ encoding.String v) =
            some (stringBytes k, stringBytes v) :=
  ⟨by decide, by decide,
    forwardChannelRequests_env_before_shell_exec langContext okChannel [execRequest]
      [("LANG", "C")] 0 execRequest rfl (by decide) (List.Perm.refl _)⟩

theorem forwardChannelRequests_outcome_and_release_witness :
    repliesTo 0 (forwardChannelRequests langContext flakyChannel
        [execRequest, windowChange, execRequest]).1 = [Event.Reply 0 true []] ∧
      ((forwardChannelRequests langContext flakyChannel
          [execRequest, windowChange, execRequest]).2 = some (errorsNew "EOF") ∧
        ∀ j, 1 < j → turnOf j (forwardChannelRequests langContext flakyChannel
          [execRequest, windowChange, execRequest]).1 = []) ∧
      (forwardChannelRequests langContext flakyChannel
        [execRequest, windowChange, execRequest]).1.count Event.Close = 1 :=
  ⟨(forwardChannelRequests_outcome_and_release langContext flakyChannel
      [execRequest, windowChange, execRequest]).1 0 execRequest rfl (by decide) rfl,
    (forwardChannelRequests_outcome_and_release langContext flakyChannel
      [execRequest, windowChange, execRequest]).2.1 1 windowChange (errorsNew "EOF") rfl
      (by decide) (Or.inl rfl),
    (forwardChannelRequests_outcome_and_release langContext flakyChannel
      [execRequest, windowChange, execRequest]).2.2⟩

theorem forwardChannels_accept_failure_recovered_witness :
    turnOf 0 (forwardChannels liveContext echoTarget [unacceptable, sessionOpen]).1 =
        [Event.Receive 0, Event.OpenChannel 0 "direct-tcpip" [9], Event.Accept 0,
          Event.Error 0 "Could not accept channel" (errorsNew "EOF")] ∧
      forwardChannels liveContext echoTarget [unacceptable, sessionOpen] =
        ([Event.Receive 0, Event.OpenChannel 0 "direct-tcpip" [9], Event.Accept 0,
          Event.Error 0 "Could not accept channel" (errorsNew "EOF"),
          Event.Receive 1, Event.OpenChannel 1 "session" [], Event.Accept 1,
          Event.GoHandle 1 ⟨1, 2, 11, 21⟩ "session"], none) ∧
      (forwardChannels liveContext echoTarget [unacceptable, sessionOpen]).2 = none :=
  ⟨((forwardChannels_accept_failure_recovered liveContext echoTarget
      [unacceptable, sessionOpen]).1 0 unacceptable (errorsNew "EOF") rfl (by decide) rfl rfl
      rfl).1,
    by decide,
    ((forwardChannels_accept_failure_recovered liveContext echoTarget
      [unacceptable, sessionOpen]).2 (by
        intro i n h
        rcases i with _ | _ | i
        · exact ⟨rfl, rfl⟩
        · exact ⟨rfl, rfl⟩
        · simp at h)).1⟩

end Forward
